import Mathlib

/-!
Personal code editor: a shallow embedding of `src/app.js`

The page is a single-threaded event-driven program.  The embedding keeps the
global variables, the parts of the DOM the handlers read and write, the two
`localStorage` entries and the pending `setTimeout` timers in one explicit
state record `AppState`; every handler of `app.js` is a function on it.

Modelling conventions
* time is a millisecond clock `now`; `setTimeout(f, d)` queues `f` for `now + d`
  and a queued timer fires exactly when the clock reaches its due time;
* the text stored under `codeSnippets` is the sequence of `key: snippet` members
  of a JSON object (`jsonStringify` and `jsonParse` move between that text and
  the object), or text on which `JSON.parse` throws;
* a JavaScript object is the list of its own properties; the keys inherited from
  `Object.prototype` are visible to property reads, and an assignment to
  `__proto__` creates no own property.
-/

namespace CodeEditor

/-! ## Data -/

/-- The three editor buffers (`editors.html`, `editors.css`, `editors.javascript`). -/
structure Buffers where
  html : String
  css : String
  javascript : String
deriving DecidableEq, Repr

/-- The object built at lines 387-393 of `saveSnippet`; `timestamp` is the clock
reading whose ISO text the code stores. -/
structure Snippet where
  name : String
  html : String
  css : String
  javascript : String
  timestamp : Nat
deriving DecidableEq, Repr

/-- `defaultCode.html`, lines 10-24. -/
def defaultHtml : String := "<!DOCTYPE html>\n<html lang=\"en\">\n<head>\n    <meta charset=\"UTF-8\">\n    <meta name=\"viewport\" content=\"width=device-width, initial-scale=1.0\">\n    <title>My Code</title>\n</head>\n<body>\n    <div class=\"container\">\n        <h1 id=\"title\">Hello, World!</h1>\n        <p>Welcome to your Online Code Editor!</p>\n        <button onclick=\"changeColor()\">Change Color</button>\n    </div>\n</body>\n</html>"

/-- `defaultCode.css`, lines 25-64. -/
def defaultCss : String := "body \x7b\n    font-family: \x27Arial\x27, sans-serif;\n    margin: 0;\n    padding: 20px;\n    background: linear-gradient(135deg, #667eea 0%, #764ba2 100%);\n    min-height: 100vh;\n    display: flex;\n    align-items: center;\n    justify-content: center;\n\x7d\n\n.container \x7b\n    background: white;\n    padding: 2rem;\n    border-radius: 10px;\n    box-shadow: 0 10px 30px rgba(0,0,0,0.3);\n    text-align: center;\n    max-width: 500px;\n\x7d\n\n#title \x7b\n    color: #333;\n    margin-bottom: 1rem;\n    transition: color 0.3s ease;\n\x7d\n\nbutton \x7b\n    background: #667eea;\n    color: white;\n    border: none;\n    padding: 10px 20px;\n    border-radius: 5px;\n    cursor: pointer;\n    font-size: 16px;\n    transition: background 0.3s ease;\n\x7d\n\nbutton:hover \x7b\n    background: #764ba2;\n\x7d"

/-- `defaultCode.javascript`, lines 65-88. -/
def defaultJavascript : String := "let colors = [\x27#e74c3c\x27, \x27#3498db\x27, \x27#2ecc71\x27, \x27#f39c12\x27, \x27#9b59b6\x27];\nlet currentIndex = 0;\n\nfunction changeColor() \x7b\n    const title = document.getElementById(\x27title\x27);\n    title.style.color = colors[currentIndex];\n    currentIndex = (currentIndex + 1) % colors.length;\n\x7d\n\n// Add some interactivity\ndocument.addEventListener(\x27DOMContentLoaded\x27, function() \x7b\n    console.log(\x27Online Code Editor loaded successfully!\x27);\n    \n    // Add click animation to the container\n    const container = document.querySelector(\x27.container\x27);\n    container.addEventListener(\x27click\x27, function(e) \x7b\n        if (e.target.tagName !== \x27BUTTON\x27) \x7b\n            this.style.transform = \x27scale(1.05)\x27;\n            setTimeout(() => \x7b\n                this.style.transform = \x27scale(1)\x27;\n            \x7d, 200);\n        \x7d\n    \x7d);\n\x7d);"

/-- The constant `defaultCode`, lines 9-89. -/
def defaultCode : Buffers := ⟨defaultHtml, defaultCss, defaultJavascript⟩

/-! ## JavaScript strings -/

/-- White space and line terminators removed by `String.prototype.trim`. -/
def isJSWhitespace (c : Char) : Bool :=
  let n := c.toNat
  n = 0x09 || n = 0x0A || n = 0x0B || n = 0x0C || n = 0x0D || n = 0x20 || n = 0xA0 ||
  n = 0x1680 || (0x2000 ≤ n && n ≤ 0x200A) || n = 0x2028 || n = 0x2029 || n = 0x202F ||
  n = 0x205F || n = 0x3000 || n = 0xFEFF

/-- Remove the characters satisfying `p` from the end of a list. -/
def dropWhileEnd (p : Char → Bool) (l : List Char) : List Char :=
  ((l.reverse).dropWhile p).reverse

/-- `String.prototype.trim`. -/
def jsTrim (s : String) : String :=
  String.mk (dropWhileEnd isJSWhitespace (s.data.dropWhile isJSWhitespace))

/-- `a || b` on strings: the empty string is the only falsy string. -/
def strOr (a b : String) : String := if a = "" then b else a

/-- UTF-16 code units of a character. -/
def utf16Units (c : Char) : List Nat :=
  if c.toNat < 0x10000 then [c.toNat]
  else [0xD800 + (c.toNat - 0x10000) / 0x400, 0xDC00 + (c.toNat - 0x10000) % 0x400]

/-- UTF-16 code units of a string, the sequence `Array.prototype.sort` compares. -/
def codeUnits (s : String) : List Nat := s.data.flatMap utf16Units

/-- Lexicographic `≤` on code-unit sequences. -/
def unitsLe : List Nat → List Nat → Bool
  | [], _ => true
  | _ :: _, [] => false
  | a :: as, b :: bs => decide (a < b) || (a == b && unitsLe as bs)

/-- The default comparison of `Array.prototype.sort` on strings: `a` does not
sort after `b`. -/
def jsStrLe (a b : String) : Prop := unitsLe (codeUnits a) (codeUnits b) = true

instance : DecidableRel jsStrLe := fun a b =>
  inferInstanceAs (Decidable (unitsLe (codeUnits a) (codeUnits b) = true))

/-- `Array.prototype.sort()` without a comparator, on an array of strings. -/
def jsSort (l : List String) : List String := l.insertionSort jsStrLe

/-! ## Objects and JSON -/

/-- Own properties of the object held in `snippets`, in creation order. -/
abbrev SnippetObj := List (String × Snippet)

/-- `Object.keys`. -/
def objectKeys (o : SnippetObj) : List String := o.map Prod.fst

/-- Own-property test. -/
def hasOwn (o : SnippetObj) (k : String) : Bool := (objectKeys o).contains k

/-- Own-property read. -/
def getOwn (o : SnippetObj) (k : String) : Option Snippet :=
  match o with
  | [] => none
  | (k', v) :: rest => if k' = k then some v else getOwn rest k

/-- Create or overwrite an own data property: an existing key keeps its place,
a new key is appended. -/
def defineProp (o : SnippetObj) (k : String) (v : Snippet) : SnippetObj :=
  match o with
  | [] => [(k, v)]
  | (k', v') :: rest => if k' = k then (k, v) :: rest else (k', v') :: defineProp rest k v

/-- Property names every plain object inherits from `Object.prototype`. -/
def objectPrototypeKeys : List String :=
  ["constructor", "__defineGetter__", "__defineSetter__", "hasOwnProperty",
   "__lookupGetter__", "__lookupSetter__", "isPrototypeOf", "propertyIsEnumerable",
   "toString", "valueOf", "__proto__", "toLocaleString"]

/-- Result of the property read `snippets[name]`. -/
inductive PropValue where
  | own (s : Snippet)
  | inherited
  | undefined
deriving DecidableEq, Repr

/-- The read `o[k]` on an object freshly produced by `JSON.parse`: an own
property, else a member of `Object.prototype`, else `undefined`. -/
def getProp (o : SnippetObj) (k : String) : PropValue :=
  match getOwn o k with
  | some s => .own s
  | none => if objectPrototypeKeys.contains k then .inherited else .undefined

/-- The assignment `o[k] = v` on an object freshly produced by `JSON.parse`.
An own key is overwritten; otherwise the key `__proto__` reaches the setter
of `Object.prototype`, which creates no own property. -/
def setProp (o : SnippetObj) (k : String) (v : Snippet) : SnippetObj :=
  if hasOwn o k then defineProp o k v
  else if k = "__proto__" then o
  else defineProp o k v

/-- Text stored under the `codeSnippets` key. -/
inductive SnippetsText where
  | malformed
  | object (members : List (String × Snippet))
deriving DecidableEq, Repr

/-- `JSON.parse` of object members: a repeated key keeps its first position and
its last value. -/
def parseMembers (members : List (String × Snippet)) : SnippetObj :=
  members.foldl (fun o kv => defineProp o kv.1 kv.2) []

/-- `JSON.parse(localStorage.getItem('codeSnippets') || '{}')`; `none` is the
thrown `SyntaxError`. -/
def jsonParse (stored : Option SnippetsText) : Option SnippetObj :=
  match stored with
  | none => some []
  | some .malformed => none
  | some (.object members) => some (parseMembers members)

/-- `JSON.stringify(snippets)`. -/
def jsonStringify (o : SnippetObj) : SnippetsText := .object o

/-! ## Application state -/

/-- Functions handed to `setTimeout` by the handlers modelled here. -/
inductive Callback where
  | updatePreview
  | hideNotification
  | revokeObjectURL
  | layoutAndFocus (tab : String)
  | layoutAll
deriving DecidableEq, Repr

/-- A pending `setTimeout` timer. -/
structure Timer where
  id : Nat
  due : Nat
  cb : Callback
deriving DecidableEq, Repr

/-- An `<option>` of the `#snippetSelector` dropdown. -/
structure SelectOption where
  value : String
  text : String
  disabled : Bool
deriving DecidableEq, Repr

/-- The `#notification` banner: the type put into its class name, the text of
`#notificationMessage`, and whether the class `hidden` is present. -/
structure Banner where
  type : String
  message : String
  hidden : Bool
deriving DecidableEq, Repr

/-- Text stored under the `autoSave` key: text that does not parse, or the
object written by `setupAutoSave`; `timestamp` is the millisecond value of
`new Date(data.timestamp)`, `none` for an invalid date. -/
inductive AutoSaveText where
  | malformed
  | snapshot (html css javascript : String) (timestamp : Option Int)
deriving DecidableEq, Repr

/-- One `updatePreview` call: when it ran and the buffers it rendered. -/
structure Render where
  time : Nat
  html : String
  css : String
  js : String
deriving DecidableEq, Repr

/-- Globals, DOM parts, storage and timer queue of the page. -/
structure AppState where
  now : Nat
  editors : Option Buffers
  currentTab : String
  updateTimeout : Option Nat
  nextTimerId : Nat
  timers : List Timer
  codeSnippets : Option SnippetsText
  autoSave : Option AutoSaveText
  snippetName : String
  selectorValue : String
  selectorOptions : List SelectOption
  saveModalHidden : Bool
  notification : Banner
  renders : List Render
  warnings : List String
deriving DecidableEq, Repr

/-- The page once the editors exist and hold `defaultCode`, with empty storage. -/
def initialState : AppState :=
  { now := 0, editors := some defaultCode, currentTab := "html", updateTimeout := none,
    nextTimerId := 1, timers := [], codeSnippets := none, autoSave := none,
    snippetName := "", selectorValue := "",
    selectorOptions := [⟨"", "Select Snippet...", false⟩, ⟨"", "No saved snippets", true⟩],
    saveModalHidden := true, notification := ⟨"", "", true⟩, renders := [], warnings := [] }

/-! ## Timers -/

/-- `setTimeout(cb, delay)`: the new timer id and the state with the timer queued. -/
def setTimeout (s : AppState) (cb : Callback) (delay : Nat) : Nat × AppState :=
  (s.nextTimerId,
   { s with nextTimerId := s.nextTimerId + 1,
            timers := s.timers ++ [⟨s.nextTimerId, s.now + delay, cb⟩] })

/-- `clearTimeout(handle)`; an undefined or stale handle clears nothing. -/
def clearTimeout (s : AppState) (handle : Option Nat) : AppState :=
  match handle with
  | none => s
  | some i => { s with timers := s.timers.filter (fun t => t.id != i) }

/-! ## Preview and notifications -/

/-- `editors.x?.getValue() || ''` for the three buffers. -/
def currentBuffers (s : AppState) : Buffers :=
  match s.editors with
  | none => ⟨"", "", ""⟩
  | some b => ⟨strOr b.html "", strOr b.css "", strOr b.javascript ""⟩

/-- `updatePreview`, lines 265-342: renders the three buffers into the frame and
queues the release of the blob URL one second later. -/
def updatePreview (s : AppState) : AppState :=
  let b := currentBuffers s
  let s1 := { s with renders := s.renders ++ [⟨s.now, b.html, b.css, b.javascript⟩] }
  (setTimeout s1 .revokeObjectURL 1000).2

/-- `debounceUpdate`, lines 259-262. -/
def debounceUpdate (s : AppState) : AppState :=
  let s1 := clearTimeout s s.updateTimeout
  let r := setTimeout s1 .updatePreview 500
  { r.2 with updateTimeout := some r.1 }

/-- `hideNotification`, lines 659-661. -/
def hideNotification (s : AppState) : AppState :=
  { s with notification := { s.notification with hidden := true } }

/-- `showNotification`, lines 644-656. -/
def showNotification (s : AppState) (message : String) (type : String) : AppState :=
  let s1 := { s with notification := ⟨type, message, false⟩ }
  (setTimeout s1 .hideNotification 3000).2

/-- Run the body of a timer callback. -/
def runCallback (s : AppState) (cb : Callback) : AppState :=
  match cb with
  | .updatePreview => updatePreview s
  | .hideNotification => hideNotification s
  | .revokeObjectURL => s
  | .layoutAndFocus _ => s
  | .layoutAll => s

/-- The pending timer that fires next among those due by time `t`: the earliest
due time, the earlier `setTimeout` call on a tie. -/
def nextDue (ts : List Timer) (t : Nat) : Option Timer :=
  ts.foldl (fun best tm =>
    if tm.due ≤ t then
      match best with
      | none => some tm
      | some b => if tm.due < b.due then some tm else some b
    else best) none

/-- Fire one timer: the clock reaches its due time, the timer leaves the queue
and its callback runs. -/
def fire (s : AppState) (tm : Timer) : AppState :=
  runCallback { s with now := max s.now tm.due,
                       timers := s.timers.filter (fun x => x.id != tm.id) } tm.cb

/-- Let the clock run to time `t`, firing the timers that come due on the way,
at most `fuel` of them. -/
def advance (fuel : Nat) (t : Nat) (s : AppState) : AppState :=
  match fuel with
  | 0 => s
  | fuel + 1 =>
    match nextDue s.timers t with
    | none => { s with now := max s.now t }
    | some tm => advance fuel t (fire s tm)

/-- The change listener of lines 160-164 attached to every editor: a content
change calls `debounceUpdate`. -/
def onDidChangeModelContent (s : AppState) : AppState := debounceUpdate s

/-- The three `setValue` calls of `loadSnippet` and `loadAutoSave`; each one
replaces a buffer and notifies the change listener. -/
def setValues (s : AppState) (b : Buffers) : AppState :=
  match s.editors with
  | none => s
  | some e =>
    let s1 := onDidChangeModelContent { s with editors := some { e with html := b.html } }
    let s2 := onDidChangeModelContent
      { s1 with editors := some { html := b.html, css := b.css, javascript := e.javascript } }
    onDidChangeModelContent { s2 with editors := some b }

/-! ## Snippet store -/

/-- `showSaveModal`, lines 367-370. -/
def showSaveModal (s : AppState) : AppState := { s with saveModalHidden := false }

/-- `hideSaveModal`, lines 373-376. -/
def hideSaveModal (s : AppState) : AppState :=
  { s with saveModalHidden := true, snippetName := "" }

/-- Options built by `loadSavedSnippets` for a parsed snippet object. -/
def snippetOptions (o : SnippetObj) : List SelectOption :=
  [⟨"", "Select Snippet...", false⟩]
    ++ (jsSort (objectKeys o)).map (fun name => ⟨name, name, false⟩)
    ++ (if (objectKeys o).length = 0 then [⟨"", "No saved snippets", true⟩] else [])

/-- `loadSavedSnippets`, lines 411-434; `none` is the `SyntaxError` of `JSON.parse`. -/
def loadSavedSnippets (s : AppState) : Option AppState :=
  match jsonParse s.codeSnippets with
  | none => none
  | some o => some { s with selectorOptions := snippetOptions o, selectorValue := "" }

/-- `saveSnippet`, lines 379-408.  `accepts` tells whether `localStorage.setItem`
takes the new text or throws; the result `none` is an exception leaving
`saveSnippet`. -/
def saveSnippet (accepts : SnippetsText → Bool) (s : AppState) : Option AppState :=
  let name := jsTrim s.snippetName
  if name = "" then
    some (showNotification s "Please enter a snippet name." "error")
  else
    let b := currentBuffers s
    let snippet : Snippet := ⟨name, b.html, b.css, b.javascript, s.now⟩
    match jsonParse s.codeSnippets with
    | none => none
    | some snippets =>
      let snippets := setProp snippets name snippet
      if accepts (jsonStringify snippets) then
        let s1 := { s with codeSnippets := some (jsonStringify snippets) }
        let s2 := showNotification s1 ("Snippet \"" ++ name ++ "\" saved successfully!") "success"
        let s3 := hideSaveModal s2
        match loadSavedSnippets s3 with
        | some s4 => some s4
        | none => some (showNotification s3 "Error saving snippet. Storage might be full." "error")
      else
        some (showNotification s "Error saving snippet. Storage might be full." "error")

/-- `loadSnippet`, lines 437-462; `none` is the `SyntaxError` of `JSON.parse`. -/
def loadSnippet (s : AppState) : Option AppState :=
  let snippetName := s.selectorValue
  if snippetName = "" then some s
  else
    match jsonParse s.codeSnippets with
    | none => none
    | some snippets =>
      let found : Option Buffers :=
        match getProp snippets snippetName with
        | .own sn => some ⟨strOr sn.html "", strOr sn.css "", strOr sn.javascript ""⟩
        | .inherited => some ⟨"", "", ""⟩
        | .undefined => none
      match found, s.editors with
      | some b, some _ =>
        let s1 := setValues s b
        let s2 := (setTimeout s1 .updatePreview 100).2
        some (showNotification s2 ("Snippet \"" ++ snippetName ++ "\" loaded successfully!") "success")
      | _, _ => some (showNotification s "Snippet not found or editors not ready." "error")

/-! ## Auto-save guard -/

/-- `diffMinutes` of `loadAutoSave`: `(now - lastSave) / (1000 * 60)`; `none` is the
`NaN` an invalid date gives. -/
def diffMinutes (now : Nat) (timestamp : Option Int) : Option ℚ :=
  timestamp.map (fun lastSave => (((now : Int) - lastSave : Int) : ℚ) / (1000 * 60))

/-- The comparison `diffMinutes < 60`; it is false on `NaN`. -/
def underAnHour (d : Option ℚ) : Bool :=
  match d with
  | none => false
  | some q => decide (q < 60)

/-- `loadAutoSave`, lines 578-606. -/
def loadAutoSave (s : AppState) : AppState :=
  match s.autoSave, s.editors with
  | some .malformed, some _ =>
    { s with warnings := s.warnings ++ ["Failed to load auto-save:"] }
  | some (.snapshot html css javascript timestamp), some live =>
    if underAnHour (diffMinutes s.now timestamp) then
      let hasDefaultContent : Bool :=
        live.html = defaultCode.html && live.css = defaultCode.css &&
        live.javascript = defaultCode.javascript
      if hasDefaultContent &&
          (html != defaultCode.html || css != defaultCode.css ||
           javascript != defaultCode.javascript) then
        let s1 := setValues s ⟨strOr html "", strOr css "", strOr javascript ""⟩
        let s2 := updatePreview s1
        showNotification s2 "Auto-saved content restored." "info"
      else s
    else s
  | _, _ => s

/-! ## Keyboard shortcuts -/

/-- The fields of a `keydown` event the handler reads. -/
structure KeyEvent where
  ctrlKey : Bool
  metaKey : Bool
  key : String
deriving DecidableEq, Repr

/-- `switchTab`, lines 234-256. -/
def switchTab (s : AppState) (tabName : String) : AppState :=
  let s1 := { s with currentTab := tabName }
  match s.editors with
  | some _ => (setTimeout s1 (.layoutAndFocus tabName) 50).2
  | none => s1

/-- The `keydown` listener of `setupKeyboardShortcuts`, lines 610-640.  The
second component tells whether `e.preventDefault()` was called. -/
def onKeydown (s : AppState) (e : KeyEvent) : AppState × Bool :=
  let r1 : AppState × Bool :=
    if e.ctrlKey && e.key = "s" then (showSaveModal s, true) else (s, false)
  let r2 : AppState × Bool :=
    if e.ctrlKey && e.key = "Enter" then (updatePreview r1.1, true) else r1
  let r3 : AppState × Bool :=
    if e.key = "Escape" then
      (if !r2.1.saveModalHidden then (hideSaveModal r2.1, r2.2) else r2)
    else r2
  if e.ctrlKey && ["1", "2", "3"].contains e.key then
    match e.key with
    | "1" => (switchTab r3.1 "html", true)
    | "2" => (switchTab r3.1 "css", true)
    | "3" => (switchTab r3.1 "javascript", true)
    | _ => (r3.1, true)
  else r3

/-! ## Driving the page -/

/-- One buffer-change event: the clock runs to time `ev.1`, the editors take the
content `ev.2`, and the change listener is notified. -/
def editAt (fuel : Nat) (s : AppState) (ev : Nat × Buffers) : AppState :=
  onDidChangeModelContent { advance fuel ev.1 s with editors := some ev.2 }

/-- A burst of buffer-change events, delivered in order. -/
def editsAt (fuel : Nat) (events : List (Nat × Buffers)) (s : AppState) : AppState :=
  events.foldl (editAt fuel) s

/-- The state once the selector holds `name`, as it does when the `change`
event that runs `loadSnippet` arrives. -/
def selectSnippet (s : AppState) (name : String) : AppState :=
  { s with selectorValue := name }

/-- The state once `#snippetName` holds `name`. -/
def typeSnippetName (s : AppState) (name : String) : AppState :=
  { s with snippetName := name }

/-- The snippet object currently persisted, when the stored text parses. -/
def storedSnippets (s : AppState) : Option SnippetObj := jsonParse s.codeSnippets


/-- The snippet names the dropdown offers: the values of the options after the
placeholder that can be selected (the disabled hint `No saved snippets` of an
empty store is not a name). -/
def listedNames (opts : List SelectOption) : List String :=
  ((opts.drop 1).filter (fun o => !o.disabled)).map (fun o => o.value)

/-! ## Example states -/

/-- A page opened at clock reading 1000000 ms with a snapshot written at 400000 ms
(ten minutes earlier) that changes the markup. -/
def tenMinuteSnapshotState : AppState :=
  { initialState with
    now := 1000000
    autoSave := some (.snapshot "<p>draft</p>" defaultCss defaultJavascript (some 400000)) }

/-- The initial page with one snippet `"a"` already stored. -/
def oneSnippetState : AppState :=
  { initialState with codeSnippets := some (.object [("a", ⟨"a", "x", "y", "z", 5⟩)]) }

/-- The initial page with the snippets `"b"` and `"a"` stored in that order. -/
def twoSnippetState : AppState :=
  { initialState with
    codeSnippets := some (.object [("b", ⟨"b", "", "", "", 1⟩), ("a", ⟨"a", "", "", "", 2⟩)]) }

/-- Notification `"A"` shown at time 0 on the initial page. -/
def shownA : AppState := showNotification initialState "A" "info"

/-- Notification `"B"` shown at time 2000, two seconds after `"A"`. -/
def shownB : AppState := showNotification (advance 4 2000 shownA) "B" "success"

/-- The page of `shownB` once the clock reads 3000. -/
def shownBAt3000 : AppState := advance 4 3000 shownB

/-- Timer ids are pairwise distinct and were all handed out by `setTimeout`. -/
def TimersOk (st : AppState) : Prop :=
  (st.timers.map Timer.id).Nodup ∧ ∀ tm ∈ st.timers, tm.id < st.nextTimerId

/-- No pending timer is going to run `updatePreview`. -/
def NoRenderPending (st : AppState) : Prop :=
  ∀ tm ∈ st.timers, tm.cb ≠ .updatePreview

/-- The page between two edits of a burst: the clock reads `t`, the editors hold
`b`, the renders are `rs`, and the debounce timer due at `t + 500`, whose handle
is in `updateTimeout`, is the only pending timer that runs `updatePreview`. -/
def DebouncePending (st : AppState) (t : Nat) (b : Buffers) (rs : List Render) : Prop :=
  st.now = t ∧ st.editors = some b ∧ st.renders = rs ∧ TimersOk st ∧
    ∃ id, st.updateTimeout = some id ∧
      (⟨id, t + 500, .updatePreview⟩ : Timer) ∈ st.timers ∧
      ∀ tm ∈ st.timers, tm.cb = .updatePreview → tm.id = id

/-- The last event of the burst `ev :: rest`. -/
def lastEvent (ev : Nat × Buffers) (rest : List (Nat × Buffers)) : Nat × Buffers :=
  (ev :: rest).getLast (List.cons_ne_nil ev rest)

/-- Nine edits following a first one at time 0, fifty milliseconds apart. -/
def nineMoreEdits : List (Nat × Buffers) :=
  [(50, ⟨"a", "", ""⟩), (100, ⟨"ab", "", ""⟩), (150, ⟨"abc", "", ""⟩), (200, ⟨"abc", "d", ""⟩),
   (250, ⟨"abc", "de", ""⟩), (300, ⟨"abc", "def", ""⟩), (350, ⟨"abc", "def", "g"⟩),
   (400, ⟨"abc", "def", "gh"⟩), (450, ⟨"abc", "def", "ghi"⟩)]

/-! ## Split pane -/

/-- A JavaScript number as far as `resize` can tell values apart: `NaN`, the two
infinities, or a finite value.  Arithmetic on finite values is exact here; the
rounding of doubles is not modelled. -/
inductive JSNumber where
  | nan
  | negInf
  | fin (q : ℚ)
  | posInf
deriving DecidableEq, Repr

/-- The comparison `a < b` of JavaScript numbers; false when either is `NaN`. -/
def JSNumber.lt : JSNumber → JSNumber → Bool
  | .nan, _ => false
  | _, .nan => false
  | .negInf, .negInf => false
  | .negInf, _ => true
  | .fin _, .negInf => false
  | .fin a, .fin b => decide (a < b)
  | .fin _, .posInf => true
  | .posInf, _ => false

/-- The comparison `a <= b` of JavaScript numbers; false when either is `NaN`. -/
def JSNumber.le : JSNumber → JSNumber → Bool
  | .nan, _ => false
  | _, .nan => false
  | .negInf, _ => true
  | .fin _, .negInf => false
  | .fin a, .fin b => decide (a ≤ b)
  | .fin _, .posInf => true
  | .posInf, .posInf => true
  | .posInf, _ => false

/-- `Math.max(a, b)`: `NaN` when either argument is `NaN`. -/
def mathMax (a b : JSNumber) : JSNumber :=
  match a, b with
  | .nan, _ => .nan
  | _, .nan => .nan
  | a, b => if JSNumber.lt a b then b else a

/-- `Math.min(a, b)`: `NaN` when either argument is `NaN`. -/
def mathMin (a b : JSNumber) : JSNumber :=
  match a, b with
  | .nan, _ => .nan
  | _, .nan => .nan
  | a, b => if JSNumber.lt b a then b else a

/-- The quotient `a / b` of finite numbers, with the results of a division by
zero: `0 / 0` is `NaN`, any other `a / 0` is an infinity with the sign of `a`
(the width of a rectangle is never a negative zero). -/
def jsDiv (a b : ℚ) : JSNumber :=
  if b = 0 then
    (if a = 0 then .nan else if 0 < a then .posInf else .negInf)
  else .fin (a / b)

/-- The product `x * 100`. -/
def jsTimes100 (x : JSNumber) : JSNumber :=
  match x with
  | .nan => .nan
  | .negInf => .negInf
  | .fin q => .fin (q * 100)
  | .posInf => .posInf

/-- `percentage` of `resize`, lines 531-535: `(mouseX / containerWidth) * 100` with
`mouseX = e.clientX - containerRect.left`. -/
def rawPercentage (clientX left width : ℚ) : JSNumber :=
  jsTimes100 (jsDiv (clientX - left) width)

/-- `clampedPercentage` of `resize`, line 536. -/
def clampPercentage (percentage : JSNumber) : JSNumber :=
  mathMin (mathMax percentage (.fin 20)) (.fin 80)

/-- The split pane: the global `isResizing` and the percentage of the `flex`
declaration `0 0 p%` that `editorSection.style` holds, `none` while the style
sheet alone lays the pane out. -/
structure SplitPane where
  isResizing : Bool
  editorFlex : Option JSNumber
deriving DecidableEq, Repr

/-- Whether `0 0 p%` is a declaration the style setter accepts: the text of a
finite number is a percentage, `NaN%` and `Infinity%` are not. -/
def flexDeclarationValid (p : JSNumber) : Bool :=
  match p with
  | .fin _ => true
  | _ => false

/-- The assignment to `editorSection.style.flex` of line 538: an invalid
declaration is dropped by the style setter and the previous one stays. -/
def setEditorFlex (pane : SplitPane) (p : JSNumber) : SplitPane :=
  if flexDeclarationValid p then { pane with editorFlex := some p } else pane

/-- `resize`, lines 528-548, for a `mousemove` at `clientX` over a container whose
bounding rectangle has the given `left` and `width`. -/
def resize (pane : SplitPane) (s : AppState) (clientX left width : ℚ) :
    SplitPane × AppState :=
  if !pane.isResizing then (pane, s)
  else
    let percentage := rawPercentage clientX left width
    let clampedPercentage := clampPercentage percentage
    (setEditorFlex pane clampedPercentage, (setTimeout s .layoutAll 10).2)

/-! ## Diagnostic channel -/

/-- A value passed to a console method in the preview.  An `object` (plain
object, array, DOM node, ...) is known by its reference. -/
inductive JSValue where
  | undefined
  | null
  | boolean (b : Bool)
  | number (n : JSNumber)
  | bigint (n : Int)
  | string (s : String)
  | symbol (description : String)
  | function (source : String)
  | object (ref : Nat)
deriving DecidableEq, Repr

/-- The operator `typeof`. -/
def typeOf (v : JSValue) : String :=
  match v with
  | .undefined => "undefined"
  | .null => "object"
  | .boolean _ => "boolean"
  | .number _ => "number"
  | .bigint _ => "bigint"
  | .string _ => "string"
  | .symbol _ => "symbol"
  | .function _ => "function"
  | .object _ => "object"

/-- What `JSON.stringify(arg)` does: it returns a text, returns `undefined` (a
`toJSON` that yields `undefined`), or throws (a circular structure, a `BigInt`
inside). -/
inductive JsonResult where
  | text (s : String)
  | undefined
  | throws
deriving DecidableEq, Repr

/-- The two built-ins of the preview's JavaScript engine that the console
wrappers call; `app.js` uses them and does not define them. -/
structure Engine where
  stringOf : JSValue → String
  stringify : JSValue → JsonResult

/-- The three wrapped console methods. -/
inductive ConsoleMethod where
  | log
  | error
  | warn
deriving DecidableEq, Repr

/-- The `method` field each wrapper sends. -/
def ConsoleMethod.name : ConsoleMethod → String
  | .log => "log"
  | .error => "error"
  | .warn => "warn"

/-- The data of a message posted to the parent window; an entry of `args` is a
string or `undefined`. -/
structure ConsoleMessage where
  type : String
  method : String
  args : List (Option String)
deriving DecidableEq, Repr

/-- The callback `arg => typeof arg === 'object' ? JSON.stringify(arg) : String(arg)`
of lines 292, 301 and 310; the outer `none` is an exception. -/
def serializeArg (engine : Engine) (arg : JSValue) : Option (Option String) :=
  if typeOf arg = "object" then
    match engine.stringify arg with
    | .text s => some (some s)
    | .undefined => some none
    | .throws => none
  else some (some (engine.stringOf arg))

/-- `args.map(...)` with the callback of `serializeArg`: the arguments are visited
in order and the first exception ends the call. -/
def serializeArgs (engine : Engine) (args : List JSValue) : Option (List (Option String)) :=
  match args with
  | [] => some []
  | a :: rest =>
    match serializeArg engine a with
    | none => none
    | some x =>
      match serializeArgs engine rest with
      | none => none
      | some xs => some (x :: xs)

/-- The function the wrapper script puts in place of `console.log`,
`console.error` and `console.warn`, lines 287-312: the message handed to
`parent.postMessage`, or `none` when it throws before posting. -/
def consoleWrapper (engine : Engine) (method : ConsoleMethod) (args : List JSValue) :
    Option ConsoleMessage :=
  match serializeArgs engine args with
  | none => none
  | some texts => some ⟨"console", method.name, texts⟩

/-- When a console call is made in the generated document of lines 270-333: by a
script of the markup buffer while `${html}` is parsed, which comes before the
wrapper script, or at any time after the place of the wrapper script. -/
inductive CallTime where
  | parsingMarkup
  | afterWrapperScript
deriving DecidableEq, Repr

/-- Whether the console methods are the wrappers at the time of a call.
`scriptRuns` tells whether the script element of lines 280-330, which holds
the wrappers and the script buffer in one piece, is parsed out of the document
and compiles; it does not when the script buffer has a syntax error. -/
def wrappersInstalled (scriptRuns : Bool) (time : CallTime) : Bool :=
  match time with
  | .parsingMarkup => false
  | .afterWrapperScript => scriptRuns

/-- What a console call in the preview does towards the host. -/
inductive CallOutcome where
  | posted (msg : ConsoleMessage)
  | threw
  | nativeOnly
deriving DecidableEq, Repr

/-- A call of `console.log`, `console.error` or `console.warn` in the preview: the
wrapper when it is installed, the browser's own method otherwise. -/
def previewConsoleCall (engine : Engine) (scriptRuns : Bool) (time : CallTime)
    (method : ConsoleMethod) (args : List JSValue) : CallOutcome :=
  if wrappersInstalled scriptRuns time then
    match consoleWrapper engine method args with
    | some msg => .posted msg
    | none => .threw
  else .nativeOnly

/-- `Array.prototype.join(sep)`: an `undefined` element contributes the empty string. -/
def arrayJoin (sep : String) (items : List (Option String)) : String :=
  sep.intercalate (items.map (fun x => x.getD ""))

/-- A child of `#consoleOutput`. -/
structure ConsoleEntry where
  className : String
  textContent : String
deriving DecidableEq, Repr

/-- `addConsoleMessage`, lines 352-359; `time` is the text of
`new Date().toLocaleTimeString()`. -/
def addConsoleMessage (output : List ConsoleEntry) (time : String) (method message : String) :
    List ConsoleEntry :=
  output ++ [⟨"console-log console-" ++ method, "[" ++ time ++ "] " ++ message⟩]

/-- The `message` listener of the host page, lines 345-349. -/
def onMessage (output : List ConsoleEntry) (time : String) (data : ConsoleMessage) :
    List ConsoleEntry :=
  if data.type = "console" then
    addConsoleMessage output time data.method (arrayJoin " " data.args)
  else output

/-- The text an argument is forwarded as: its JSON text when `typeof` is `'object'`,
its `String` form otherwise. -/
def argText (engine : Engine) (arg : JSValue) : String :=
  if typeOf arg = "object" then
    match engine.stringify arg with
    | .text s => s
    | _ => ""
  else engine.stringOf arg

/-- An engine for the examples.  Numbers are used with integer values only;
`object 0` is a circular object, `object 1` has a `toJSON` that returns
`undefined`, `object 2` is the array `[1, 2]`, every other object is empty. -/
def sampleEngine : Engine where
  stringOf := fun v =>
    match v with
    | .undefined => "undefined"
    | .null => "null"
    | .boolean true => "true"
    | .boolean false => "false"
    | .string s => s
    | .bigint n => toString n
    | .symbol d => "Symbol(" ++ d ++ ")"
    | .function source => source
    | .number .nan => "NaN"
    | .number .posInf => "Infinity"
    | .number .negInf => "-Infinity"
    | .number (.fin q) => toString q.num
    | .object _ => "[object Object]"
  stringify := fun v =>
    match v with
    | .null => .text "null"
    | .object 0 => .throws
    | .object 1 => .undefined
    | .object 2 => .text "[1,2]"
    | .object _ => .text "\x7b\x7d"
    | .boolean true => .text "true"
    | .boolean false => .text "false"
    | .bigint _ => .throws
    | _ => .undefined

/-! ## Lemmas on strings, objects and JSON -/

theorem strOr_empty (a : String) : strOr a "" = a := by
  unfold strOr; split <;> simp_all

theorem getOwn_defineProp_self (o : SnippetObj) (k : String) (v : Snippet) :
    getOwn (defineProp o k v) k = some v := by
  induction o with
  | nil => simp [defineProp, getOwn]
  | cons p rest ih =>
    obtain ⟨k', v'⟩ := p
    by_cases h : k' = k
    · simp [defineProp, getOwn, h]
    · simp [defineProp, getOwn, h, ih]

theorem getOwn_defineProp_ne (o : SnippetObj) (k k' : String) (v : Snippet) (hne : k' ≠ k) :
    getOwn (defineProp o k v) k' = getOwn o k' := by
  induction o with
  | nil => simp [defineProp, getOwn, Ne.symm hne]
  | cons p rest ih =>
    obtain ⟨k₀, v₀⟩ := p
    by_cases h : k₀ = k
    · subst h
      simp [defineProp, getOwn, Ne.symm hne]
    · simp [defineProp, getOwn, h, ih]

theorem hasOwn_iff_mem (o : SnippetObj) (k : String) : hasOwn o k = true ↔ k ∈ objectKeys o := by
  simp [hasOwn]

theorem objectKeys_defineProp_mem (o : SnippetObj) (k : String) (v : Snippet)
    (h : k ∈ objectKeys o) : objectKeys (defineProp o k v) = objectKeys o := by
  induction o with
  | nil => simp [objectKeys] at h
  | cons p rest ih =>
    obtain ⟨k₀, v₀⟩ := p
    by_cases hk : k₀ = k
    · simp [defineProp, objectKeys, hk]
    · have : k ∈ objectKeys rest := by
        simp only [objectKeys, List.map_cons, List.mem_cons] at h
        rcases h with h | h
        · exact absurd h.symm hk
        · exact h
      have ih' := ih this
      simp only [objectKeys] at ih'
      simp [defineProp, objectKeys, hk, ih']

theorem objectKeys_defineProp_not_mem (o : SnippetObj) (k : String) (v : Snippet)
    (h : k ∉ objectKeys o) : objectKeys (defineProp o k v) = objectKeys o ++ [k] := by
  induction o with
  | nil => simp [defineProp, objectKeys]
  | cons p rest ih =>
    obtain ⟨k₀, v₀⟩ := p
    simp only [objectKeys, List.map_cons, List.mem_cons, not_or] at h
    have hk : ¬ k₀ = k := fun e => h.1 e.symm
    have ih' := ih h.2
    simp only [objectKeys] at ih'
    simp [defineProp, objectKeys, hk, ih']

theorem nodup_objectKeys_defineProp (o : SnippetObj) (k : String) (v : Snippet)
    (h : (objectKeys o).Nodup) : (objectKeys (defineProp o k v)).Nodup := by
  by_cases hk : k ∈ objectKeys o
  · rw [objectKeys_defineProp_mem o k v hk]; exact h
  · rw [objectKeys_defineProp_not_mem o k v hk]
    exact List.Nodup.append h (List.nodup_singleton k) (by simpa using hk)

theorem foldl_defineProp_nodup (members : List (String × Snippet)) (o : SnippetObj)
    (h : (objectKeys o).Nodup) :
    (objectKeys (members.foldl (fun o kv => defineProp o kv.1 kv.2) o)).Nodup := by
  induction members generalizing o with
  | nil => simpa using h
  | cons p rest ih => exact ih _ (nodup_objectKeys_defineProp o p.1 p.2 h)

theorem nodup_objectKeys_parseMembers (members : List (String × Snippet)) :
    (objectKeys (parseMembers members)).Nodup :=
  foldl_defineProp_nodup members [] (by simp [objectKeys])

theorem nodup_objectKeys_of_jsonParse (stored : Option SnippetsText) (o : SnippetObj)
    (h : jsonParse stored = some o) : (objectKeys o).Nodup := by
  cases stored with
  | none => simp [jsonParse] at h; subst h; simp [objectKeys]
  | some t =>
    cases t with
    | malformed => simp [jsonParse] at h
    | object members =>
      simp [jsonParse] at h; subst h; exact nodup_objectKeys_parseMembers members

theorem defineProp_append_new (o : SnippetObj) (k : String) (v : Snippet)
    (h : k ∉ objectKeys o) : defineProp o k v = o ++ [(k, v)] := by
  induction o with
  | nil => simp [defineProp]
  | cons p rest ih =>
    obtain ⟨k₀, v₀⟩ := p
    simp only [objectKeys, List.map_cons, List.mem_cons, not_or] at h
    have hk : ¬ k₀ = k := fun e => h.1 e.symm
    have ih' := ih h.2
    simp [defineProp, hk, ih']

theorem foldl_defineProp_of_nodup (members o : SnippetObj)
    (h : (objectKeys (o ++ members)).Nodup) :
    members.foldl (fun o kv => defineProp o kv.1 kv.2) o = o ++ members := by
  induction members generalizing o with
  | nil => simp
  | cons p rest ih =>
    obtain ⟨k, v⟩ := p
    have hk : k ∉ objectKeys o := by
      simp only [objectKeys, List.map_append, List.map_cons] at h
      have := (List.nodup_append.1 h).2.2
      intro hmem
      exact this hmem (List.mem_cons_self _ _)
    simp only [List.foldl_cons]
    rw [defineProp_append_new o k v hk, ih]
    · simp
    · simpa using h

theorem parseMembers_of_nodup (o : SnippetObj) (h : (objectKeys o).Nodup) :
    parseMembers o = o := by
  have := foldl_defineProp_of_nodup o [] (by simpa using h)
  simpa [parseMembers] using this

theorem jsonParse_jsonStringify (o : SnippetObj) (h : (objectKeys o).Nodup) :
    jsonParse (some (jsonStringify o)) = some o := by
  simp [jsonParse, jsonStringify, parseMembers_of_nodup o h]


/-! ## Lemmas on the handlers -/

theorem nodup_objectKeys_setProp (o : SnippetObj) (k : String) (v : Snippet)
    (h : (objectKeys o).Nodup) : (objectKeys (setProp o k v)).Nodup := by
  unfold setProp
  split
  · exact nodup_objectKeys_defineProp o k v h
  · split
    · exact h
    · exact nodup_objectKeys_defineProp o k v h

theorem setProp_eq_defineProp (o : SnippetObj) (k : String) (v : Snippet)
    (hproto : k ≠ "__proto__") : setProp o k v = defineProp o k v := by
  simp [setProp, hproto]

@[simp] theorem showNotification_codeSnippets (s : AppState) (m t : String) :
    (showNotification s m t).codeSnippets = s.codeSnippets := rfl

@[simp] theorem showNotification_editors (s : AppState) (m t : String) :
    (showNotification s m t).editors = s.editors := rfl

@[simp] theorem showNotification_banner (s : AppState) (m t : String) :
    (showNotification s m t).notification = ⟨t, m, false⟩ := rfl

theorem setValues_editors (s : AppState) (e b : Buffers) (h : s.editors = some e) :
    (setValues s b).editors = some b := by
  simp [setValues, h, onDidChangeModelContent, debounceUpdate, setTimeout, clearTimeout]

theorem currentBuffers_of_editors (s : AppState) (b : Buffers) (h : s.editors = some b) :
    currentBuffers s = b := by
  simp [currentBuffers, h, strOr_empty]

/-- What a save that passes validation and is accepted by the storage does. -/
theorem saveSnippet_accepted (accepts : SnippetsText → Bool) (s : AppState) (o : SnippetObj)
    (hname : jsTrim s.snippetName ≠ "")
    (hparse : storedSnippets s = some o)
    (hacc : accepts (jsonStringify (setProp o (jsTrim s.snippetName)
      ⟨jsTrim s.snippetName, (currentBuffers s).html, (currentBuffers s).css,
        (currentBuffers s).javascript, s.now⟩)) = true) :
    ∃ s1, saveSnippet accepts s = some s1 ∧
      storedSnippets s1 = some (setProp o (jsTrim s.snippetName)
        ⟨jsTrim s.snippetName, (currentBuffers s).html, (currentBuffers s).css,
          (currentBuffers s).javascript, s.now⟩) ∧
      s1.editors = s.editors ∧ s1.now = s.now ∧ s1.notification.type = "success" := by
  have hnd : (objectKeys o).Nodup := nodup_objectKeys_of_jsonParse _ _ hparse
  have hnd2 := nodup_objectKeys_setProp o (jsTrim s.snippetName)
    ⟨jsTrim s.snippetName, (currentBuffers s).html, (currentBuffers s).css,
      (currentBuffers s).javascript, s.now⟩ hnd
  have hp2 := jsonParse_jsonStringify _ hnd2
  simp only [storedSnippets] at hparse
  simp only [saveSnippet, hname, if_false, hparse, hacc, if_true, loadSavedSnippets,
    hideSaveModal, hp2]
  refine ⟨_, rfl, ?_, rfl, rfl, rfl⟩
  simpa [storedSnippets] using hp2


/-! ## C1: save then load -/

/-- C1, as stated, fails: the name `" "` is non-empty, yet `saveSnippet` rejects it
after trimming, stores nothing, and a later `loadSnippet` with the same name
reports that the snippet was not found and leaves the (meanwhile edited)
buffers as they are instead of setting them to the saved triple. -/
theorem C1_counterexample_blank_name :
    " " ≠ "" ∧
    ∃ s1 s3, saveSnippet (fun _ => true)
        (typeSnippetName { initialState with editors := some ⟨"<p>hi</p>", "margin:0", "f()"⟩ } " ")
          = some s1 ∧
      s1.codeSnippets = none ∧
      loadSnippet (selectSnippet { s1 with editors := some ⟨"", "", ""⟩ } " ") = some s3 ∧
      s3.editors = some ⟨"", "", ""⟩ ∧
      s3.editors ≠ some ⟨"<p>hi</p>", "margin:0", "f()"⟩ ∧
      s3.notification.message = "Snippet not found or editors not ready." := by
  refine ⟨by decide, _, _, rfl, rfl, rfl, rfl, by decide, rfl⟩

/-- C1 (amended): for every name whose trimmed form is non-empty and is not
`__proto__`, every buffer triple `B` held by the editors and every stored
snippet text that parses, if the storage accepts the write then `saveSnippet`
returns, and from then on, as long as the stored text is the one it wrote and
the editors exist, `loadSnippet` with the trimmed name selected returns and
sets the three live buffers to exactly `B`. -/
theorem C1_save_then_load_roundtrip (accepts : SnippetsText → Bool) (s : AppState)
    (name : String) (B : Buffers) (o : SnippetObj)
    (hname : jsTrim name ≠ "") (hproto : jsTrim name ≠ "__proto__")
    (hed : s.editors = some B)
    (hparse : storedSnippets s = some o)
    (hacc : accepts (jsonStringify (setProp o (jsTrim name)
      ⟨jsTrim name, B.html, B.css, B.javascript, s.now⟩)) = true) :
    ∃ s1, saveSnippet accepts (typeSnippetName s name) = some s1 ∧
      ∀ (s2 : AppState) (e : Buffers),
        s2.codeSnippets = s1.codeSnippets → s2.editors = some e →
        ∃ s3, loadSnippet (selectSnippet s2 (jsTrim name)) = some s3 ∧
          s3.editors = some B := by
  have hcb : currentBuffers (typeSnippetName s name) = B :=
    currentBuffers_of_editors _ B hed
  obtain ⟨s1, hs1, hst, -, -, -⟩ := saveSnippet_accepted accepts (typeSnippetName s name) o
    hname hparse (by rw [hcb]; exact hacc)
  refine ⟨s1, hs1, ?_⟩
  intro s2 e hcs he
  rw [hcb] at hst
  have hp2 : jsonParse (selectSnippet s2 (jsTrim name)).codeSnippets
      = some (defineProp o (jsTrim name) ⟨jsTrim name, B.html, B.css, B.javascript, s.now⟩) := by
    have : (selectSnippet s2 (jsTrim name)).codeSnippets = s1.codeSnippets := hcs
    rw [this, ← setProp_eq_defineProp _ _ _ hproto]
    exact hst
  have hsel : (selectSnippet s2 (jsTrim name)).selectorValue = jsTrim name := rfl
  have he2 : (selectSnippet s2 (jsTrim name)).editors = some e := he
  simp only [loadSnippet, hsel, hname, if_false, hp2, getProp, getOwn_defineProp_self, he2,
    strOr_empty]
  refine ⟨_, rfl, ?_⟩
  simp only [showNotification_editors]
  have := setValues_editors (selectSnippet s2 (jsTrim name)) e B he2
  simpa [setTimeout] using this

/-- Witness of `C1_save_then_load_roundtrip`: saving under `" demo "` into empty
storage and loading `"demo"`. -/
theorem C1_save_then_load_roundtrip_witness :
    ∃ s1, saveSnippet (fun _ => true)
        (typeSnippetName { initialState with editors := some ⟨"<p>hi</p>", "margin:0", "f()"⟩ }
          " demo ") = some s1 ∧
      ∀ (s2 : AppState) (e : Buffers),
        s2.codeSnippets = s1.codeSnippets → s2.editors = some e →
        ∃ s3, loadSnippet (selectSnippet s2 (jsTrim " demo ")) = some s3 ∧
          s3.editors = some ⟨"<p>hi</p>", "margin:0", "f()"⟩ :=
  C1_save_then_load_roundtrip (fun _ => true)
    { initialState with editors := some ⟨"<p>hi</p>", "margin:0", "f()"⟩ } " demo "
    ⟨"<p>hi</p>", "margin:0", "f()"⟩ [] (by decide) (by decide) rfl rfl rfl


/-! ## C2: blank names are rejected -/

theorem dropWhile_eq_nil_of_all (p : Char → Bool) (l : List Char)
    (h : ∀ c ∈ l, p c = true) : l.dropWhile p = [] := by
  induction l with
  | nil => rfl
  | cons a rest ih =>
    have ha : p a = true := h a (List.mem_cons_self _ _)
    simp only [List.dropWhile_cons, ha, if_true]
    exact ih (fun c hc => h c (List.mem_cons_of_mem _ hc))

theorem jsTrim_of_blank (name : String) (h : ∀ c ∈ name.data, isJSWhitespace c = true) :
    jsTrim name = "" := by
  unfold jsTrim
  rw [dropWhile_eq_nil_of_all _ _ h]
  rfl

/-- C2: for every name that is empty or made only of white space, whatever the
buffers and the storage hold and whether or not the storage would accept a
write, `saveSnippet` returns without an exception, shows the validation
message as an error notification, and leaves both storage entries (so the
stored snippet map) exactly as they were. -/
theorem C2_blank_name_rejected (accepts : SnippetsText → Bool) (s : AppState) (name : String)
    (hblank : ∀ c ∈ name.data, isJSWhitespace c = true) :
    ∃ s1, saveSnippet accepts (typeSnippetName s name) = some s1 ∧
      s1.notification = ⟨"error", "Please enter a snippet name.", false⟩ ∧
      s1.codeSnippets = s.codeSnippets ∧ s1.autoSave = s.autoSave ∧
      storedSnippets s1 = storedSnippets s := by
  have ht : jsTrim (typeSnippetName s name).snippetName = "" := jsTrim_of_blank name hblank
  refine ⟨showNotification (typeSnippetName s name) "Please enter a snippet name." "error",
    ?_, rfl, rfl, rfl, rfl⟩
  simp only [saveSnippet, ht, if_true]

/-- Witness of `C2_blank_name_rejected`: a name of a space, a tab and a second
space, with one snippet already stored. -/
theorem C2_blank_name_rejected_witness :
    (∀ c ∈ (" \t " : String).data, isJSWhitespace c = true) ∧
    ∃ s1, saveSnippet (fun _ => true)
        (typeSnippetName { initialState with
          codeSnippets := some (.object [("a", ⟨"a", "x", "y", "z", 5⟩)]) } " \t ") = some s1 ∧
      s1.notification = ⟨"error", "Please enter a snippet name.", false⟩ ∧
      s1.codeSnippets = some (.object [("a", ⟨"a", "x", "y", "z", 5⟩)]) ∧
      s1.autoSave = none ∧
      storedSnippets s1 = storedSnippets { initialState with
          codeSnippets := some (.object [("a", ⟨"a", "x", "y", "z", 5⟩)]) } :=
  ⟨by decide,
   C2_blank_name_rejected (fun _ => true)
     { initialState with codeSnippets := some (.object [("a", ⟨"a", "x", "y", "z", 5⟩)]) }
     " \t " (by decide)⟩


/-! ## C3: auto-save restoration -/

theorem underAnHour_iff (now : Nat) (ts : Int) :
    underAnHour (diffMinutes now (some ts)) = true ↔ (now : Int) - ts < 60 * (1000 * 60) := by
  simp only [underAnHour, diffMinutes, Option.map_some', decide_eq_true_eq]
  rw [div_lt_iff₀ (by norm_num : (0 : ℚ) < 1000 * 60)]
  constructor
  · intro h
    have h' : (((now : Int) - ts : Int) : ℚ) < ((60 * (1000 * 60) : Int) : ℚ) := by
      push_cast at h ⊢; linarith
    exact_mod_cast h'
  · intro h
    have h' : (((now : Int) - ts : Int) : ℚ) < ((60 * (1000 * 60) : Int) : ℚ) := by
      exact_mod_cast h
    push_cast at h' ⊢; linarith

theorem loadAutoSave_restores (s : AppState) (h c j : String) (ts : Int)
    (hsnap : s.autoSave = some (.snapshot h c j (some ts)))
    (hed : s.editors = some defaultCode)
    (hage : (s.now : Int) - ts < 60 * (1000 * 60))
    (hdiff : (⟨h, c, j⟩ : Buffers) ≠ defaultCode) :
    loadAutoSave s = showNotification
      (updatePreview (setValues s ⟨strOr h "", strOr c "", strOr j ""⟩))
      "Auto-saved content restored." "info" := by
  have hu := (underAnHour_iff s.now ts).2 hage
  have hd : (h != defaultCode.html || c != defaultCode.css || j != defaultCode.javascript)
      = true := by
    by_contra hcon
    simp only [Bool.not_eq_true, Bool.or_eq_false_iff, bne_eq_false_iff_eq] at hcon
    apply hdiff
    obtain ⟨⟨h1, h2⟩, h3⟩ := hcon
    rw [h1, h2, h3]
  simp only [loadAutoSave, hsnap, hed, hu, if_true, hd, Bool.and_true, decide_True,
    Bool.and_self]

theorem loadAutoSave_skips (s : AppState) (live : Buffers) (hed : s.editors = some live)
    (hno : ¬ ∃ h c j ts, s.autoSave = some (.snapshot h c j (some ts)) ∧
      (s.now : Int) - ts < 60 * (1000 * 60) ∧ live = defaultCode ∧
      (⟨h, c, j⟩ : Buffers) ≠ defaultCode) :
    (loadAutoSave s).editors = s.editors ∧ (loadAutoSave s).notification = s.notification ∧
      (loadAutoSave s).renders = s.renders := by
  cases hsnap : s.autoSave with
  | none => simp [loadAutoSave, hsnap]
  | some text =>
    cases text with
    | malformed => simp [loadAutoSave, hsnap, hed]
    | snapshot h c j timestamp =>
      cases timestamp with
      | none => simp [loadAutoSave, hsnap, hed, diffMinutes, underAnHour]
      | some ts =>
        by_cases hage : (s.now : Int) - ts < 60 * (1000 * 60)
        · have hu := (underAnHour_iff s.now ts).2 hage
          by_cases hlive : live = defaultCode
          · have hsame : (⟨h, c, j⟩ : Buffers) = defaultCode := by
              by_contra hne
              exact hno ⟨h, c, j, ts, hsnap, hage, hlive, hne⟩
            have h1 : h = defaultCode.html := by rw [← hsame]
            have h2 : c = defaultCode.css := by rw [← hsame]
            have h3 : j = defaultCode.javascript := by rw [← hsame]
            simp [loadAutoSave, hsnap, hed, hu, h1, h2, h3]
          · have hb : ¬ ((live.html = defaultCode.html ∧ live.css = defaultCode.css) ∧
                live.javascript = defaultCode.javascript) := by
              rintro ⟨⟨e1, e2⟩, e3⟩
              apply hlive
              cases live
              simp_all
            simp [loadAutoSave, hsnap, hed, hu, hb]
        · have hu : underAnHour (diffMinutes s.now (some ts)) = false := by
            cases hx : underAnHour (diffMinutes s.now (some ts)) with
            | false => rfl
            | true => exact absurd ((underAnHour_iff s.now ts).1 hx) hage
          simp [loadAutoSave, hsnap, hed, hu]

/-- C3: with the editors holding the triple `live`, `loadAutoSave` overwrites the
three buffers with the stored snapshot and shows the notification
"Auto-saved content restored." exactly when a snapshot is stored and parses
with a valid time stamp, its age `now - timestamp` is under 60 minutes, `live`
equals `defaultCode` in all three buffers, and the snapshot differs from
`defaultCode`; in every other case the three buffers, the notification banner
and the list of renders are left as they were. -/
theorem C3_autosave_restore_iff (s : AppState) (live : Buffers) (hed : s.editors = some live) :
    (∀ h c j ts, s.autoSave = some (.snapshot h c j (some ts)) →
        (s.now : Int) - ts < 60 * (1000 * 60) → live = defaultCode →
        (⟨h, c, j⟩ : Buffers) ≠ defaultCode →
        (loadAutoSave s).editors = some ⟨h, c, j⟩ ∧
        (loadAutoSave s).editors ≠ s.editors ∧
        (loadAutoSave s).notification = ⟨"info", "Auto-saved content restored.", false⟩) ∧
    ((¬ ∃ h c j ts, s.autoSave = some (.snapshot h c j (some ts)) ∧
        (s.now : Int) - ts < 60 * (1000 * 60) ∧ live = defaultCode ∧
        (⟨h, c, j⟩ : Buffers) ≠ defaultCode) →
      (loadAutoSave s).editors = some live ∧
      (loadAutoSave s).notification = s.notification ∧
      (loadAutoSave s).renders = s.renders) := by
  constructor
  · intro h c j ts hsnap hage hlive hdiff
    subst hlive
    rw [loadAutoSave_restores s h c j ts hsnap hed hage hdiff]
    have hset := setValues_editors s defaultCode ⟨strOr h "", strOr c "", strOr j ""⟩ hed
    simp only [strOr_empty] at hset ⊢
    have he : (showNotification (updatePreview (setValues s ⟨h, c, j⟩))
        "Auto-saved content restored." "info").editors = some ⟨h, c, j⟩ := by
      simpa [updatePreview, setTimeout] using hset
    refine ⟨he, ?_, rfl⟩
    rw [he, hed]
    intro hcon
    exact hdiff (Option.some.inj hcon)
  · intro hno
    obtain ⟨h1, h2, h3⟩ := loadAutoSave_skips s live hed hno
    exact ⟨h1.trans hed, h2, h3⟩

/-- Witness of `C3_autosave_restore_iff`: default buffers, a snapshot taken ten
minutes before the current time that changes the markup. -/
theorem C3_autosave_restore_iff_witness :
    (loadAutoSave tenMinuteSnapshotState).editors
      = some ⟨"<p>draft</p>", defaultCss, defaultJavascript⟩ :=
  ((C3_autosave_restore_iff tenMinuteSnapshotState defaultCode rfl).1
    "<p>draft</p>" defaultCss defaultJavascript 400000 rfl (by decide) rfl (by decide)).1


/-! ## C4 and C5: overwriting and the other snippets -/

theorem mem_objectKeys_defineProp (o : SnippetObj) (k k' : String) (v : Snippet) :
    k' ∈ objectKeys (defineProp o k v) ↔ k' ∈ objectKeys o ∨ k' = k := by
  by_cases hk : k ∈ objectKeys o
  · rw [objectKeys_defineProp_mem o k v hk]
    constructor
    · exact Or.inl
    · rintro (h | h)
      · exact h
      · rw [h]; exact hk
  · rw [objectKeys_defineProp_not_mem o k v hk]
    simp

/-- The accepted save, stated for a name typed into `#snippetName`. -/
theorem saveSnippet_typed (accepts : SnippetsText → Bool) (s : AppState) (name : String)
    (o : SnippetObj) (hname : jsTrim name ≠ "")
    (hparse : storedSnippets s = some o)
    (hacc : accepts (jsonStringify (setProp o (jsTrim name)
      ⟨jsTrim name, (currentBuffers s).html, (currentBuffers s).css,
        (currentBuffers s).javascript, s.now⟩)) = true) :
    ∃ s1, saveSnippet accepts (typeSnippetName s name) = some s1 ∧
      storedSnippets s1 = some (setProp o (jsTrim name)
        ⟨jsTrim name, (currentBuffers s).html, (currentBuffers s).css,
          (currentBuffers s).javascript, s.now⟩) ∧
      s1.now = s.now ∧ s1.notification.type = "success" := by
  obtain ⟨s1, hs1, hst, -, hnow, hok⟩ :=
    saveSnippet_accepted accepts (typeSnippetName s name) o hname hparse hacc
  exact ⟨s1, hs1, hst, hnow, hok⟩

/-- C4, as stated, fails: the name `" "` is non-empty, yet after two saves under
it the stored snippet map has no entry for that name. -/
theorem C4_counterexample_blank_name :
    " " ≠ "" ∧
    ∃ s1 s2, saveSnippet (fun _ => true)
        (typeSnippetName { initialState with editors := some ⟨"one", "", ""⟩ } " ") = some s1 ∧
      saveSnippet (fun _ => true)
        (typeSnippetName { s1 with editors := some ⟨"two", "", ""⟩ } " ") = some s2 ∧
      storedSnippets s2 = some [] ∧ (objectKeys []).count " " = 0 := by
  refine ⟨by decide, _, _, rfl, rfl, rfl, by decide⟩

/-- C4 (amended): for every name whose trimmed form is non-empty and is not
`__proto__`, every stored snippet text that parses and buffer triples `B1`
and `B2`, when the storage accepts the writes, `saveSnippet` with `B1` followed
by `saveSnippet` with `B2` under the same name both return, and afterwards the
stored snippet map has exactly one entry for the trimmed name, whose `html`,
`css` and `javascript` are those of `B2`. -/
theorem C4_last_write_wins (accepts : SnippetsText → Bool) (s : AppState) (name : String)
    (B1 B2 : Buffers) (o : SnippetObj)
    (hname : jsTrim name ≠ "") (hproto : jsTrim name ≠ "__proto__")
    (hparse : storedSnippets s = some o)
    (hacc : ∀ t, accepts t = true) :
    ∃ s1 s2 o2, saveSnippet accepts (typeSnippetName { s with editors := some B1 } name)
        = some s1 ∧
      saveSnippet accepts (typeSnippetName { s1 with editors := some B2 } name) = some s2 ∧
      storedSnippets s2 = some o2 ∧
      (objectKeys o2).count (jsTrim name) = 1 ∧
      getOwn o2 (jsTrim name)
        = some ⟨jsTrim name, B2.html, B2.css, B2.javascript, s1.now⟩ := by
  obtain ⟨s1, hs1, hst1, -, -⟩ := saveSnippet_typed accepts
    { s with editors := some B1 } name o hname hparse (hacc _)
  obtain ⟨s2, hs2, hst2, -, -⟩ := saveSnippet_typed accepts
    { s1 with editors := some B2 } name _ hname hst1 (hacc _)
  rw [currentBuffers_of_editors { s1 with editors := some B2 } B2 rfl] at hst2
  refine ⟨s1, s2, _, hs1, hs2, hst2, ?_, ?_⟩
  · have hnd := nodup_objectKeys_of_jsonParse _ _ hst2
    apply List.count_eq_one_of_mem hnd
    rw [setProp_eq_defineProp _ _ _ hproto]
    exact (mem_objectKeys_defineProp _ _ _ _).2 (Or.inr rfl)
  · rw [setProp_eq_defineProp _ _ _ hproto]
    exact getOwn_defineProp_self _ _ _

/-- Witness of `C4_last_write_wins`: two saves under `"demo"` into empty storage. -/
theorem C4_last_write_wins_witness :
    ∃ s1 s2 o2, saveSnippet (fun _ => true)
        (typeSnippetName { initialState with editors := some ⟨"one", "", ""⟩ } "demo")
        = some s1 ∧
      saveSnippet (fun _ => true)
        (typeSnippetName { s1 with editors := some ⟨"two", "", ""⟩ } "demo") = some s2 ∧
      storedSnippets s2 = some o2 ∧
      (objectKeys o2).count (jsTrim "demo") = 1 ∧
      getOwn o2 (jsTrim "demo") = some ⟨jsTrim "demo", "two", "", "", s1.now⟩ :=
  C4_last_write_wins (fun _ => true) initialState "demo" ⟨"one", "", ""⟩ ⟨"two", "", ""⟩ []
    (by decide) (by decide) rfl (fun _ => rfl)

/-- C5, as stated, fails: the save under the name `" a "` succeeds, but the set of
stored names gains `"a"`, not `" a "`. -/
theorem C5_counterexample_padded_name :
    " a " ≠ "" ∧
    ∃ s1, saveSnippet (fun _ => true) (typeSnippetName initialState " a ") = some s1 ∧
      s1.notification.type = "success" ∧
      (storedSnippets s1).map objectKeys = some ["a"] ∧
      " a " ∉ ["a"] := by
  refine ⟨by decide, _, rfl, rfl, rfl, by decide⟩

/-- C5 (amended): for every stored snippet map, every name `n` whose trimmed form
is non-empty and is not `__proto__`, and every buffer triple, when the storage
accepts the write `saveSnippet` returns with the success notification, every
entry stored under a name other than the trimmed `n` is still present and
unchanged, and the stored names are the old names plus the trimmed `n`. -/
theorem C5_save_keeps_other_snippets (accepts : SnippetsText → Bool) (s : AppState)
    (name : String) (o : SnippetObj)
    (hname : jsTrim name ≠ "") (hproto : jsTrim name ≠ "__proto__")
    (hparse : storedSnippets s = some o)
    (hacc : ∀ t, accepts t = true) :
    ∃ s1 o1, saveSnippet accepts (typeSnippetName s name) = some s1 ∧
      s1.notification.type = "success" ∧
      storedSnippets s1 = some o1 ∧
      (∀ k, k ≠ jsTrim name → getOwn o1 k = getOwn o k) ∧
      (∀ k, k ∈ objectKeys o1 ↔ k ∈ objectKeys o ∨ k = jsTrim name) := by
  obtain ⟨s1, hs1, hst1, -, hok⟩ := saveSnippet_typed accepts s name o
    hname hparse (hacc _)
  refine ⟨s1, _, hs1, hok, hst1, ?_, ?_⟩
  · intro k hk
    rw [setProp_eq_defineProp _ _ _ hproto]
    exact getOwn_defineProp_ne _ _ _ _ hk
  · intro k
    rw [setProp_eq_defineProp _ _ _ hproto]
    exact mem_objectKeys_defineProp _ _ _ _

/-- Witness of `C5_save_keeps_other_snippets`: saving `"b"` next to a stored `"a"`. -/
theorem C5_save_keeps_other_snippets_witness :
    ∃ s1 o1, saveSnippet (fun _ => true) (typeSnippetName oneSnippetState "b") = some s1 ∧
      s1.notification.type = "success" ∧
      storedSnippets s1 = some o1 ∧
      (∀ k, k ≠ jsTrim "b" → getOwn o1 k = getOwn [("a", ⟨"a", "x", "y", "z", 5⟩)] k) ∧
      (∀ k, k ∈ objectKeys o1 ↔ k ∈ objectKeys [("a", ⟨"a", "x", "y", "z", 5⟩)] ∨
        k = jsTrim "b") :=
  C5_save_keeps_other_snippets (fun _ => true) oneSnippetState "b"
    [("a", ⟨"a", "x", "y", "z", 5⟩)] (by decide) (by decide) rfl (fun _ => rfl)


/-! ## C6: the dropdown lists the stored names in order -/

theorem unitsLe_total (a b : List Nat) : unitsLe a b = true ∨ unitsLe b a = true := by
  induction a generalizing b with
  | nil => left; simp [unitsLe]
  | cons x xs ih =>
    cases b with
    | nil => right; simp [unitsLe]
    | cons y ys =>
      simp only [unitsLe, Bool.or_eq_true, decide_eq_true_eq, Bool.and_eq_true, beq_iff_eq]
      rcases Nat.lt_trichotomy x y with h | h | h
      · exact Or.inl (Or.inl h)
      · subst h
        rcases ih ys with h' | h'
        · exact Or.inl (Or.inr ⟨rfl, h'⟩)
        · exact Or.inr (Or.inr ⟨rfl, h'⟩)
      · exact Or.inr (Or.inl h)

theorem unitsLe_trans (a b c : List Nat) (hab : unitsLe a b = true) (hbc : unitsLe b c = true) :
    unitsLe a c = true := by
  induction a generalizing b c with
  | nil => simp [unitsLe]
  | cons x xs ih =>
    cases b with
    | nil => simp [unitsLe] at hab
    | cons y ys =>
      cases c with
      | nil => simp [unitsLe] at hbc
      | cons z zs =>
        simp only [unitsLe, Bool.or_eq_true, decide_eq_true_eq, Bool.and_eq_true,
          beq_iff_eq] at hab hbc ⊢
        rcases hab with h1 | ⟨h1, h1'⟩
        · rcases hbc with h2 | ⟨h2, -⟩
          · exact Or.inl (lt_trans h1 h2)
          · exact Or.inl (h2 ▸ h1)
        · rcases hbc with h2 | ⟨h2, h2'⟩
          · exact Or.inl (h1 ▸ h2)
          · exact Or.inr ⟨h1.trans h2, ih ys zs h1' h2'⟩

instance jsStrLe_isTotal : IsTotal String jsStrLe :=
  ⟨fun a b => unitsLe_total (codeUnits a) (codeUnits b)⟩

instance jsStrLe_isTrans : IsTrans String jsStrLe :=
  ⟨fun a b c hab hbc => unitsLe_trans (codeUnits a) (codeUnits b) (codeUnits c) hab hbc⟩

theorem listedNames_snippetOptions (o : SnippetObj) :
    listedNames (snippetOptions o) = jsSort (objectKeys o) := by
  unfold listedNames snippetOptions
  by_cases h : (objectKeys o).length = 0
  · simp [h, List.filter_map, Function.comp_def]
  · simp [h, List.filter_map, Function.comp_def]

/-- C6: whenever the stored snippet text parses, `loadSavedSnippets` returns and the
names its dropdown lists after the placeholder are exactly the stored names,
each once, in ascending lexicographic order of their UTF-16 code units; and
saving `"b"`, `"a"`, `"c"` in that order leaves the list `["a", "b", "c"]`. -/
theorem C6_listed_names_sorted :
    (∀ (s : AppState) (o : SnippetObj), storedSnippets s = some o →
      ∃ s1, loadSavedSnippets s = some s1 ∧
        (listedNames s1.selectorOptions).Sorted jsStrLe ∧
        (listedNames s1.selectorOptions).Perm (objectKeys o) ∧
        (listedNames s1.selectorOptions).Nodup) ∧
    (∃ sb sa sc, saveSnippet (fun _ => true) (typeSnippetName initialState "b") = some sb ∧
      saveSnippet (fun _ => true) (typeSnippetName sb "a") = some sa ∧
      saveSnippet (fun _ => true) (typeSnippetName sa "c") = some sc ∧
      listedNames sc.selectorOptions = ["a", "b", "c"]) := by
  constructor
  · intro s o hparse
    simp only [storedSnippets] at hparse
    refine ⟨{ s with selectorOptions := snippetOptions o, selectorValue := "" }, ?_, ?_⟩
    · simp [loadSavedSnippets, hparse]
    · show (listedNames (snippetOptions o)).Sorted jsStrLe ∧
        (listedNames (snippetOptions o)).Perm (objectKeys o) ∧
        (listedNames (snippetOptions o)).Nodup
      rw [listedNames_snippetOptions]
      have hperm : (jsSort (objectKeys o)).Perm (objectKeys o) :=
        List.perm_insertionSort jsStrLe (objectKeys o)
      refine ⟨List.sorted_insertionSort jsStrLe (objectKeys o), hperm, ?_⟩
      exact hperm.nodup_iff.2 (nodup_objectKeys_of_jsonParse _ _ hparse)
  · exact ⟨_, _, _, rfl, rfl, rfl, by decide⟩

/-- Witness of `C6_listed_names_sorted`: a store holding `"b"` and `"a"`. -/
theorem C6_listed_names_sorted_witness :
    ∃ s1, loadSavedSnippets twoSnippetState = some s1 ∧
      (listedNames s1.selectorOptions).Sorted jsStrLe ∧
      (listedNames s1.selectorOptions).Perm
        (objectKeys [("b", ⟨"b", "", "", "", 1⟩), ("a", ⟨"a", "", "", "", 2⟩)]) ∧
      (listedNames s1.selectorOptions).Nodup :=
  C6_listed_names_sorted.1 twoSnippetState
    [("b", ⟨"b", "", "", "", 1⟩), ("a", ⟨"a", "", "", "", 2⟩)] rfl


/-! ## C7: a rejected write -/

/-- C7: whenever `saveSnippet` reaches the write (the trimmed name is non-empty and
the stored text parses) and `localStorage.setItem` rejects it, `saveSnippet`
returns without an exception, shows the error notification "Error saving
snippet. Storage might be full.", and the stored text and the snippet map it
parses to are exactly what they were before the call. -/
theorem C7_rejected_write_is_reported (accepts : SnippetsText → Bool) (s : AppState)
    (o : SnippetObj) (hname : jsTrim s.snippetName ≠ "")
    (hparse : storedSnippets s = some o)
    (hrej : accepts (jsonStringify (setProp o (jsTrim s.snippetName)
      ⟨jsTrim s.snippetName, (currentBuffers s).html, (currentBuffers s).css,
        (currentBuffers s).javascript, s.now⟩)) = false) :
    ∃ s1, saveSnippet accepts s = some s1 ∧
      s1.notification = ⟨"error", "Error saving snippet. Storage might be full.", false⟩ ∧
      s1.codeSnippets = s.codeSnippets ∧ storedSnippets s1 = some o := by
  simp only [storedSnippets] at hparse
  refine ⟨showNotification s "Error saving snippet. Storage might be full." "error",
    ?_, rfl, rfl, ?_⟩
  · simp [saveSnippet, hname, hparse, hrej]
  · simpa [storedSnippets] using hparse

/-- Witness of `C7_rejected_write_is_reported`: a full storage that already holds
the snippet `"a"`, and a save under `"b"`. -/
theorem C7_rejected_write_is_reported_witness :
    ∃ s1, saveSnippet (fun _ => false) (typeSnippetName oneSnippetState "b") = some s1 ∧
      s1.notification = ⟨"error", "Error saving snippet. Storage might be full.", false⟩ ∧
      s1.codeSnippets = (typeSnippetName oneSnippetState "b").codeSnippets ∧
      storedSnippets s1 = some [("a", ⟨"a", "x", "y", "z", 5⟩)] :=
  C7_rejected_write_is_reported (fun _ => false) (typeSnippetName oneSnippetState "b")
    [("a", ⟨"a", "x", "y", "z", 5⟩)] (by decide) rfl rfl

/-! ## C8: keyboard shortcuts -/

/-- C8, as stated, fails: on Cmd+S (`metaKey` without `ctrlKey`) the handler does
nothing and does not call `preventDefault`, and on Escape with the save modal
open it closes the modal without calling `preventDefault`. -/
theorem C8_counterexample_cmd_and_escape :
    onKeydown initialState ⟨false, true, "s"⟩ = (initialState, false) ∧
    onKeydown (showSaveModal initialState) ⟨false, false, "Escape"⟩
      = (hideSaveModal (showSaveModal initialState), false) := by
  constructor <;> rfl

/-- C8 (amended): for every key-down event with `ctrlKey` set, the key `s` opens the
save modal, `Enter` runs `updatePreview`, and `1`, `2`, `3` switch to the html,
css and javascript tab, each with `preventDefault` called; on `Escape` the
handler hides the save modal when it is open, changes nothing else, and does
not call `preventDefault`. -/
theorem C8_ctrl_shortcuts (s : AppState) (ctrl cmd : Bool) (key : String) :
    (ctrl = true → key = "s" →
      onKeydown s ⟨ctrl, cmd, key⟩ = (showSaveModal s, true)) ∧
    (ctrl = true → key = "Enter" →
      onKeydown s ⟨ctrl, cmd, key⟩ = (updatePreview s, true)) ∧
    (ctrl = true → key = "1" →
      onKeydown s ⟨ctrl, cmd, key⟩ = (switchTab s "html", true)) ∧
    (ctrl = true → key = "2" →
      onKeydown s ⟨ctrl, cmd, key⟩ = (switchTab s "css", true)) ∧
    (ctrl = true → key = "3" →
      onKeydown s ⟨ctrl, cmd, key⟩ = (switchTab s "javascript", true)) ∧
    (key = "Escape" →
      onKeydown s ⟨ctrl, cmd, key⟩
        = (if s.saveModalHidden then s else hideSaveModal s, false)) := by
  refine ⟨?_, ?_, ?_, ?_, ?_, ?_⟩
  · rintro rfl rfl; simp [onKeydown]
  · rintro rfl rfl; simp [onKeydown]
  · rintro rfl rfl; simp [onKeydown]
  · rintro rfl rfl; simp [onKeydown]
  · rintro rfl rfl; simp [onKeydown]
  · rintro rfl
    cases h : s.saveModalHidden <;> simp [onKeydown, h]

/-- Witness of `C8_ctrl_shortcuts`: Ctrl+2 on the initial page. -/
theorem C8_ctrl_shortcuts_witness :
    onKeydown initialState ⟨true, false, "2"⟩ = (switchTab initialState "css", true) :=
  (C8_ctrl_shortcuts initialState true false "2").2.2.2.1 rfl rfl

/-! ## C9: the notification timer -/

/-- C9, evaluated where it fails: notification `"A"` is shown at time 0 and `"B"` at
time 2000.  `"B"` is visible right after its call, but at time 3000 the timer
started for `"A"` fires and hides the banner, one second after `"B"` was
shown; the timer of `"B"`, due at 5000, is still pending. -/
theorem C9_older_timer_hides_newer :
    shownB.notification = ⟨"success", "B", false⟩ ∧
    shownB.now = 2000 ∧
    shownBAt3000.now = 3000 ∧
    shownBAt3000.notification = ⟨"success", "B", true⟩ ∧
    shownBAt3000.timers = [⟨2, 5000, .hideNotification⟩] := by
  refine ⟨rfl, rfl, rfl, rfl, rfl⟩



/-! ## C10: the debounced render -/

/-- What the fold inside `nextDue` returns, for any starting candidate. -/
theorem nextDue_foldl_spec (t : Nat) (ts : List Timer) (acc : Option Timer)
    (hacc : ∀ a, acc = some a → a.due ≤ t) :
    (ts.foldl (fun best tm =>
        if tm.due ≤ t then
          match best with
          | none => some tm
          | some b => if tm.due < b.due then some tm else some b
        else best) acc = none → acc = none ∧ ∀ x ∈ ts, t < x.due) ∧
    (∀ r, ts.foldl (fun best tm =>
        if tm.due ≤ t then
          match best with
          | none => some tm
          | some b => if tm.due < b.due then some tm else some b
        else best) acc = some r →
      r.due ≤ t ∧ (acc = some r ∨ r ∈ ts) ∧ (∀ a, acc = some a → r.due ≤ a.due) ∧
        ∀ x ∈ ts, x.due ≤ t → r.due ≤ x.due) := by
  induction ts generalizing acc with
  | nil =>
    refine ⟨fun h => ⟨by simpa using h, by simp⟩, fun r h => ?_⟩
    have h' : acc = some r := by simpa using h
    exact ⟨hacc r h', Or.inl h', fun a ha => by rw [h'] at ha; cases ha; exact le_refl _,
      by simp⟩
  | cons x rest ih =>
    simp only [List.foldl_cons]
    by_cases hx : x.due ≤ t
    · cases acc with
      | none =>
        simp only [hx, if_true]
        obtain ⟨ih1, ih2⟩ := ih (some x) (fun a ha => by cases ha; exact hx)
        refine ⟨fun h => absurd (ih1 h).1 (by simp), fun r h => ?_⟩
        obtain ⟨h1, h2, h3, h4⟩ := ih2 r h
        refine ⟨h1, Or.inr ?_, (fun a ha => by cases ha), ?_⟩
        · rcases h2 with h2 | h2
          · cases h2; exact List.mem_cons_self _ _
          · exact List.mem_cons_of_mem _ h2
        · intro y hy hyt
          rcases List.mem_cons.1 hy with rfl | hy
          · exact h3 _ rfl
          · exact h4 y hy hyt
      | some b =>
        have hb : b.due ≤ t := hacc b rfl
        by_cases hlt : x.due < b.due
        · simp only [hx, if_true, hlt]
          obtain ⟨ih1, ih2⟩ := ih (some x) (fun a ha => by cases ha; exact hx)
          refine ⟨fun h => absurd (ih1 h).1 (by simp), fun r h => ?_⟩
          obtain ⟨h1, h2, h3, h4⟩ := ih2 r h
          refine ⟨h1, Or.inr ?_, fun a ha => ?_, ?_⟩
          · rcases h2 with h2 | h2
            · cases h2; exact List.mem_cons_self _ _
            · exact List.mem_cons_of_mem _ h2
          · cases ha
            exact le_trans (h3 _ rfl) (le_of_lt hlt)
          · intro y hy hyt
            rcases List.mem_cons.1 hy with rfl | hy
            · exact h3 _ rfl
            · exact h4 y hy hyt
        · simp only [hx, if_true, hlt, if_false]
          obtain ⟨ih1, ih2⟩ := ih (some b) (fun a ha => by cases ha; exact hb)
          refine ⟨fun h => absurd (ih1 h).1 (by simp), fun r h => ?_⟩
          obtain ⟨h1, h2, h3, h4⟩ := ih2 r h
          refine ⟨h1, ?_, fun a ha => ?_, ?_⟩
          · rcases h2 with h2 | h2
            · exact Or.inl h2
            · exact Or.inr (List.mem_cons_of_mem _ h2)
          · cases ha
            exact h3 _ rfl
          · intro y hy hyt
            rcases List.mem_cons.1 hy with rfl | hy
            · exact le_trans (h3 _ rfl) (not_lt.1 hlt)
            · exact h4 y hy hyt
    · simp only [hx, if_false]
      obtain ⟨ih1, ih2⟩ := ih acc hacc
      refine ⟨fun h => ⟨(ih1 h).1, ?_⟩, fun r h => ?_⟩
      · intro y hy
        rcases List.mem_cons.1 hy with rfl | hy
        · exact not_le.1 hx
        · exact (ih1 h).2 y hy
      · obtain ⟨h1, h2, h3, h4⟩ := ih2 r h
        refine ⟨h1, ?_, h3, ?_⟩
        · rcases h2 with h2 | h2
          · exact Or.inl h2
          · exact Or.inr (List.mem_cons_of_mem _ h2)
        · intro y hy hyt
          rcases List.mem_cons.1 hy with rfl | hy
          · exact absurd hyt hx
          · exact h4 y hy hyt

theorem nextDue_eq_none (ts : List Timer) (t : Nat) (h : nextDue ts t = none) :
    ∀ x ∈ ts, t < x.due :=
  ((nextDue_foldl_spec t ts none (by simp)).1 h).2

theorem nextDue_eq_some (ts : List Timer) (t : Nat) (r : Timer) (h : nextDue ts t = some r) :
    r ∈ ts ∧ r.due ≤ t ∧ ∀ x ∈ ts, x.due ≤ t → r.due ≤ x.due := by
  obtain ⟨h1, h2, -, h4⟩ := (nextDue_foldl_spec t ts none (by simp)).2 r h
  rcases h2 with h2 | h2
  · cases h2
  · exact ⟨h2, h1, h4⟩

/-- Firing a timer whose callback is not `updatePreview`. -/
theorem fire_other (st : AppState) (tm : Timer) (h : tm.cb ≠ .updatePreview) :
    (fire st tm).renders = st.renders ∧ (fire st tm).editors = st.editors ∧
    (fire st tm).updateTimeout = st.updateTimeout ∧
    (fire st tm).nextTimerId = st.nextTimerId ∧
    (fire st tm).now = max st.now tm.due ∧
    (fire st tm).timers = st.timers.filter (fun x => x.id != tm.id) := by
  obtain ⟨id, due, cb⟩ := tm
  cases cb with
  | updatePreview => exact absurd rfl h
  | hideNotification => exact ⟨rfl, rfl, rfl, rfl, rfl, rfl⟩
  | revokeObjectURL => exact ⟨rfl, rfl, rfl, rfl, rfl, rfl⟩
  | layoutAndFocus tab => exact ⟨rfl, rfl, rfl, rfl, rfl, rfl⟩
  | layoutAll => exact ⟨rfl, rfl, rfl, rfl, rfl, rfl⟩

/-- Firing a timer whose callback is `updatePreview`. -/
theorem fire_updatePreview (st : AppState) (id due : Nat) (b : Buffers)
    (hed : st.editors = some b) :
    (fire st ⟨id, due, .updatePreview⟩).renders
      = st.renders ++ [⟨max st.now due, b.html, b.css, b.javascript⟩] ∧
    (fire st ⟨id, due, .updatePreview⟩).now = max st.now due ∧
    (fire st ⟨id, due, .updatePreview⟩).nextTimerId = st.nextTimerId + 1 ∧
    (fire st ⟨id, due, .updatePreview⟩).timers
      = st.timers.filter (fun x => x.id != id)
        ++ [⟨st.nextTimerId, max st.now due + 1000, .revokeObjectURL⟩] := by
  have hcb : currentBuffers
      { st with now := max st.now due, timers := st.timers.filter (fun x => x.id != id) } = b :=
    currentBuffers_of_editors _ b hed
  have hfire : fire st ⟨id, due, .updatePreview⟩ =
      { st with now := max st.now due,
                renders := st.renders ++ [⟨max st.now due, b.html, b.css, b.javascript⟩],
                nextTimerId := st.nextTimerId + 1,
                timers := st.timers.filter (fun x => x.id != id)
                  ++ [⟨st.nextTimerId, max st.now due + 1000, .revokeObjectURL⟩] } := by
    simp only [fire, runCallback, updatePreview, setTimeout, hcb]
  rw [hfire]
  exact ⟨rfl, rfl, rfl, rfl⟩

/-- In a list of timers with distinct ids, the id determines the timer. -/
theorem timer_eq_of_id_eq (ts : List Timer) (hnd : (ts.map Timer.id).Nodup) (x y : Timer)
    (hx : x ∈ ts) (hy : y ∈ ts) (hid : x.id = y.id) : x = y :=
  List.inj_on_of_nodup_map hnd hx hy hid

theorem nodup_ids_filter (ts : List Timer) (p : Timer → Bool)
    (hnd : (ts.map Timer.id).Nodup) : ((ts.filter p).map Timer.id).Nodup :=
  List.Nodup.sublist (List.Sublist.map _ (List.filter_sublist ts)) hnd

/-- Running the clock to `T` while no timer due by `T` runs `updatePreview`: given
fuel for every pending timer, nothing is rendered, the clock reaches `T`, and
exactly the timers due after `T` stay pending. -/
theorem advance_quiet (fuel T : Nat) (st : AppState)
    (hfuel : st.timers.length < fuel) (hnd : (st.timers.map Timer.id).Nodup)
    (hq : ∀ tm ∈ st.timers, tm.due ≤ T → tm.cb ≠ .updatePreview) :
    (advance fuel T st).renders = st.renders ∧ (advance fuel T st).editors = st.editors ∧
    (advance fuel T st).updateTimeout = st.updateTimeout ∧
    (advance fuel T st).nextTimerId = st.nextTimerId ∧
    (advance fuel T st).now = max st.now T ∧
    (advance fuel T st).timers = st.timers.filter (fun tm => decide (T < tm.due)) := by
  induction fuel generalizing st with
  | zero => exact absurd hfuel (Nat.not_lt_zero _)
  | succ fuel ih =>
    cases hnext : nextDue st.timers T with
    | none =>
      have hall := nextDue_eq_none _ _ hnext
      have hadv : advance (fuel + 1) T st = { st with now := max st.now T } := by
        simp only [advance, hnext]
      rw [hadv]
      refine ⟨rfl, rfl, rfl, rfl, rfl, ?_⟩
      exact (List.filter_eq_self.2 (fun a ha => by simpa using hall a ha)).symm
    | some tm =>
      obtain ⟨hmem, hdue, -⟩ := nextDue_eq_some _ _ _ hnext
      obtain ⟨f1, f2, f3, f4, f5, f6⟩ := fire_other st tm (hq tm hmem hdue)
      have hlen : (fire st tm).timers.length < fuel := by
        rw [f6]
        have : (st.timers.filter (fun x => x.id != tm.id)).length < st.timers.length :=
          List.length_filter_lt_length_iff_exists.2 ⟨tm, hmem, by simp⟩
        omega
      have hnd' : ((fire st tm).timers.map Timer.id).Nodup := by
        rw [f6]; exact nodup_ids_filter _ _ hnd
      have hq' : ∀ x ∈ (fire st tm).timers, x.due ≤ T → x.cb ≠ .updatePreview := by
        intro x hx
        rw [f6] at hx
        exact hq x (List.mem_of_mem_filter hx)
      obtain ⟨g1, g2, g3, g4, g5, g6⟩ := ih (fire st tm) hlen hnd' hq'
      have hadv : advance (fuel + 1) T st = advance fuel T (fire st tm) := by
        simp only [advance, hnext]
      rw [hadv]
      refine ⟨g1.trans f1, g2.trans f2, g3.trans f3, g4.trans f4, ?_, ?_⟩
      · rw [g5, f5]
        omega
      · rw [g6, f6, List.filter_filter]
        apply List.filter_congr
        intro x hx
        by_cases hxid : x.id = tm.id
        · have : x = tm := timer_eq_of_id_eq _ hnd x tm hx hmem hxid
          subst this
          have : ¬ T < x.due := by omega
          simp [this]
        · simp [hxid]

theorem debounceUpdate_spec (s : AppState) :
    (debounceUpdate s).now = s.now ∧ (debounceUpdate s).editors = s.editors ∧
    (debounceUpdate s).renders = s.renders ∧
    (debounceUpdate s).updateTimeout = some s.nextTimerId ∧
    (debounceUpdate s).nextTimerId = s.nextTimerId + 1 ∧
    (debounceUpdate s).timers = (clearTimeout s s.updateTimeout).timers
      ++ [⟨s.nextTimerId, s.now + 500, .updatePreview⟩] := by
  cases h : s.updateTimeout <;> simp [debounceUpdate, clearTimeout, setTimeout, h]

theorem clearTimeout_sublist (s : AppState) (h : Option Nat) :
    (clearTimeout s h).timers.Sublist s.timers := by
  cases h with
  | none => exact List.Sublist.refl _
  | some i => exact List.filter_sublist _

theorem clearTimeout_removes (s : AppState) (i : Nat) (x : Timer)
    (hx : x ∈ (clearTimeout s (some i)).timers) : x.id ≠ i := by
  have : x ∈ s.timers.filter (fun t => t.id != i) := hx
  simpa using (List.mem_filter.1 this).2

/-- One edit of a burst.  If the clock has not passed the time of the edit, the timer
ids are in order, and every pending timer that runs `updatePreview` is not yet
due and is the one `updateTimeout` names, then after the edit the debounce
timer for this edit is the only pending timer that runs `updatePreview`. -/
theorem editAt_spec (fuel : Nat) (st : AppState) (ev : Nat × Buffers)
    (hfuel : st.timers.length < fuel) (hok : TimersOk st) (hnow : st.now ≤ ev.1)
    (hq : ∀ tm ∈ st.timers, tm.cb = .updatePreview →
      ev.1 < tm.due ∧ st.updateTimeout = some tm.id) :
    DebouncePending (editAt fuel st ev) ev.1 ev.2 st.renders ∧
    (editAt fuel st ev).timers.length
      ≤ (st.timers.filter (fun tm => tm.cb != .updatePreview)).length + 1 := by
  obtain ⟨a1, -, a3, a4, a5, a6⟩ := advance_quiet fuel ev.1 st hfuel hok.1
    (fun tm hm hd hcb => by have := (hq tm hm hcb).1; omega)
  obtain ⟨d1, d2, d3, d4, d5, d6⟩ :=
    debounceUpdate_spec { advance fuel ev.1 st with editors := some ev.2 }
  have hedit : editAt fuel st ev
      = debounceUpdate { advance fuel ev.1 st with editors := some ev.2 } := rfl
  have hsub : (clearTimeout { advance fuel ev.1 st with editors := some ev.2 }
      (advance fuel ev.1 st).updateTimeout).timers.Sublist st.timers := by
    refine (clearTimeout_sublist _ _).trans ?_
    show (advance fuel ev.1 st).timers.Sublist st.timers
    rw [a6]
    exact List.filter_sublist _
  have hno : ∀ x ∈ (clearTimeout { advance fuel ev.1 st with editors := some ev.2 }
      (advance fuel ev.1 st).updateTimeout).timers, x.cb ≠ .updatePreview := by
    intro x hx hcb
    have hxs : x ∈ st.timers := hsub.subset hx
    have hup := (hq x hxs hcb).2
    rw [a3, hup] at hx
    exact clearTimeout_removes _ _ _ hx rfl
  have hmax : max st.now ev.1 = ev.1 := max_eq_right hnow
  rw [hedit]
  refine ⟨⟨?_, d2, d3.trans a1, ⟨?_, ?_⟩, (advance fuel ev.1 st).nextTimerId, d4, ?_, ?_⟩, ?_⟩
  · rw [d1]; exact a5.trans hmax
  · rw [d6, List.map_append, List.nodup_append]
    refine ⟨List.Nodup.sublist (List.Sublist.map _ hsub) hok.1, by simp, ?_⟩
    intro i hi hi'
    simp only [List.map_cons, List.map_nil, List.mem_singleton] at hi'
    obtain ⟨x, hx, rfl⟩ := List.mem_map.1 hi
    have := hok.2 x (hsub.subset hx)
    rw [a4] at hi'
    omega
  · intro tm htm
    rw [d6] at htm
    rw [d5]
    rcases List.mem_append.1 htm with h | h
    · have := hok.2 tm (hsub.subset h)
      show tm.id < (advance fuel ev.1 st).nextTimerId + 1
      rw [a4]; omega
    · simp only [List.mem_singleton] at h
      subst h
      show (advance fuel ev.1 st).nextTimerId < (advance fuel ev.1 st).nextTimerId + 1
      omega
  · rw [d6]
    apply List.mem_append_right
    have : (advance fuel ev.1 st).now = ev.1 := a5.trans hmax
    simp [this]
  · intro tm htm hcb
    rw [d6] at htm
    rcases List.mem_append.1 htm with h | h
    · exact absurd hcb (hno tm h)
    · simp only [List.mem_singleton] at h
      subst h
      rfl
  · rw [d6, List.length_append]
    have hfil : (clearTimeout { advance fuel ev.1 st with editors := some ev.2 }
        (advance fuel ev.1 st).updateTimeout).timers.filter (fun tm => tm.cb != .updatePreview)
        = (clearTimeout { advance fuel ev.1 st with editors := some ev.2 }
        (advance fuel ev.1 st).updateTimeout).timers :=
      List.filter_eq_self.2 (fun x hx => by simpa using hno x hx)
    have hle := (List.Sublist.filter (fun tm : Timer => tm.cb != .updatePreview) hsub).length_le
    rw [hfil] at hle
    simpa using hle

theorem debouncePending_step (fuel n : Nat) (st : AppState) (t : Nat) (b : Buffers)
    (rs : List Render) (ev : Nat × Buffers) (hp : DebouncePending st t b rs)
    (hlen : st.timers.length ≤ n + 1) (hfuel : n + 1 < fuel)
    (hle : t ≤ ev.1) (hlt : ev.1 < t + 500) :
    DebouncePending (editAt fuel st ev) ev.1 ev.2 rs ∧
    (editAt fuel st ev).timers.length ≤ n + 1 := by
  obtain ⟨hnow, -, hrs, hok, id, hup, hmem, honly⟩ := hp
  have hq : ∀ tm ∈ st.timers, tm.cb = .updatePreview →
      ev.1 < tm.due ∧ st.updateTimeout = some tm.id := by
    intro tm htm hcb
    have hid := honly tm htm hcb
    have heq : tm = ⟨id, t + 500, .updatePreview⟩ :=
      timer_eq_of_id_eq _ hok.1 _ _ htm hmem hid
    subst heq
    exact ⟨hlt, hup⟩
  obtain ⟨h1, h2⟩ := editAt_spec fuel st ev (by omega) hok (by omega) hq
  rw [hrs] at h1
  refine ⟨h1, ?_⟩
  have hlt' : (st.timers.filter (fun tm => tm.cb != .updatePreview)).length
      < st.timers.length :=
    List.length_filter_lt_length_iff_exists.2 ⟨_, hmem, by simp⟩
  omega

theorem debouncePending_burst (fuel n : Nat) (rest : List (Nat × Buffers)) (st : AppState)
    (ev : Nat × Buffers) (rs : List Render) (hp : DebouncePending st ev.1 ev.2 rs)
    (hlen : st.timers.length ≤ n + 1) (hfuel : n + 1 < fuel)
    (hburst : List.Chain (fun a b : Nat × Buffers => a.1 ≤ b.1 ∧ b.1 < a.1 + 500) ev rest) :
    DebouncePending (editsAt fuel rest st) (lastEvent ev rest).1 (lastEvent ev rest).2 rs ∧
    (editsAt fuel rest st).timers.length ≤ n + 1 := by
  unfold lastEvent
  induction rest generalizing st ev with
  | nil => exact ⟨by simpa [editsAt] using hp, by simpa [editsAt] using hlen⟩
  | cons e rest ih =>
    rw [List.chain_cons] at hburst
    obtain ⟨hstep, hlen'⟩ :=
      debouncePending_step fuel n st ev.1 ev.2 rs e hp hlen hfuel hburst.1.1 hburst.1.2
    have := ih (editAt fuel st e) e hstep hlen' hburst.2
    simpa [editsAt, List.getLast_cons] using this

/-- Running the clock past the due time of the pending debounce timer: it fires
once, at its due time, and nothing else renders. -/
theorem advance_fires (fuel T t : Nat) (b : Buffers) (rs : List Render) (st : AppState)
    (hfuel : st.timers.length + 1 < fuel) (hT : t + 500 ≤ T) (hnow : st.now ≤ t + 500)
    (hed : st.editors = some b) (hrs : st.renders = rs) (hok : TimersOk st)
    (hpend : ∃ id, (⟨id, t + 500, .updatePreview⟩ : Timer) ∈ st.timers ∧
      ∀ tm ∈ st.timers, tm.cb = .updatePreview → tm.id = id) :
    (advance fuel T st).renders = rs ++ [⟨t + 500, b.html, b.css, b.javascript⟩] ∧
    (advance fuel T st).now = T := by
  induction fuel generalizing st with
  | zero => exact absurd hfuel (Nat.not_lt_zero _)
  | succ fuel ih =>
    obtain ⟨id, hmem, honly⟩ := hpend
    cases hnext : nextDue st.timers T with
    | none =>
      have := nextDue_eq_none _ _ hnext _ hmem
      simp only at this
      omega
    | some tm =>
      obtain ⟨htm, hdue, hmin⟩ := nextDue_eq_some _ _ _ hnext
      have hadv : advance (fuel + 1) T st = advance fuel T (fire st tm) := by
        simp only [advance, hnext]
      have htm500 : tm.due ≤ t + 500 := hmin _ hmem hT
      rw [hadv]
      by_cases hcb : tm.cb = .updatePreview
      · have heq : tm = ⟨id, t + 500, .updatePreview⟩ :=
          timer_eq_of_id_eq _ hok.1 _ _ htm hmem (honly tm htm hcb)
        subst heq
        obtain ⟨f1, f2, f3, f4⟩ := fire_updatePreview st id (t + 500) b hed
        have hmax : max st.now (t + 500) = t + 500 := max_eq_right hnow
        rw [hmax] at f1 f2 f4
        have hfil : ∀ x ∈ st.timers.filter (fun x => x.id != id), x.cb ≠ .updatePreview := by
          intro x hx hxcb
          have hxid := honly x (List.mem_of_mem_filter hx) hxcb
          have := (List.mem_filter.1 hx).2
          simp [hxid] at this
        have hlen : (fire st ⟨id, t + 500, .updatePreview⟩).timers.length < fuel := by
          rw [f4, List.length_append]
          have : (st.timers.filter (fun x => x.id != id)).length < st.timers.length :=
            List.length_filter_lt_length_iff_exists.2 ⟨_, hmem, by simp⟩
          simp only [List.length_singleton]
          omega
        have hnd : ((fire st ⟨id, t + 500, .updatePreview⟩).timers.map Timer.id).Nodup := by
          rw [f4, List.map_append, List.nodup_append]
          refine ⟨nodup_ids_filter _ _ hok.1, by simp, ?_⟩
          intro i hi hi'
          simp only [List.map_cons, List.map_nil, List.mem_singleton] at hi'
          obtain ⟨x, hx, rfl⟩ := List.mem_map.1 hi
          have := hok.2 x (List.mem_of_mem_filter hx)
          omega
        have hq : ∀ x ∈ (fire st ⟨id, t + 500, .updatePreview⟩).timers, x.due ≤ T →
            x.cb ≠ .updatePreview := by
          intro x hx _
          rw [f4] at hx
          rcases List.mem_append.1 hx with h | h
          · exact hfil x h
          · simp only [List.mem_singleton] at h
            subst h
            simp
        obtain ⟨g1, -, -, -, g5, -⟩ := advance_quiet fuel T _ hlen hnd hq
        rw [g1, g5, f1, f2, hrs]
        exact ⟨rfl, max_eq_right hT⟩
      · obtain ⟨f1, f2, -, f4, f5, f6⟩ := fire_other st tm hcb
        have hne : tm.id ≠ id := by
          intro hid
          have heq : tm = ⟨id, t + 500, .updatePreview⟩ :=
            timer_eq_of_id_eq _ hok.1 _ _ htm hmem hid
          rw [heq] at hcb
          exact hcb rfl
        apply ih (fire st tm)
        · rw [f6]
          have : (st.timers.filter (fun x => x.id != tm.id)).length < st.timers.length :=
            List.length_filter_lt_length_iff_exists.2 ⟨tm, htm, by simp⟩
          omega
        · rw [f5]; exact max_le hnow htm500
        · rw [f2]; exact hed
        · rw [f1]; exact hrs
        · refine ⟨?_, ?_⟩
          · rw [f6]; exact nodup_ids_filter _ _ hok.1
          · intro x hx
            rw [f6] at hx
            rw [f4]
            exact hok.2 x (List.mem_of_mem_filter hx)
        · refine ⟨id, ?_, ?_⟩
          · rw [f6]
            apply List.mem_filter.2
            refine ⟨hmem, ?_⟩
            simpa using Ne.symm hne
          · intro x hx hxcb
            rw [f6] at hx
            exact honly x (List.mem_of_mem_filter hx) hxcb

/-- C10: from a page whose timer ids are in order and on which no render is
pending, for every burst of one or more buffer-change events in which each
event follows the previous one by less than 500 ms, and with fuel for every
pending timer and three more firings, the burst causes exactly one
`updatePreview` call: none has run at any time before 500 ms after the last
event, and at every time from then on exactly one has run, at 500 ms after the
last event and on the content of the last event. -/
theorem C10_debounce_single_render (fuel : Nat) (s : AppState) (ev : Nat × Buffers)
    (rest : List (Nat × Buffers)) (T : Nat)
    (hfuel : s.timers.length + 3 ≤ fuel) (hok : TimersOk s) (hidle : NoRenderPending s)
    (hnow : s.now ≤ ev.1)
    (hburst : List.Chain (fun a b : Nat × Buffers => a.1 ≤ b.1 ∧ b.1 < a.1 + 500) ev rest) :
    (T < (lastEvent ev rest).1 + 500 →
      (advance fuel T (editsAt fuel (ev :: rest) s)).renders = s.renders) ∧
    ((lastEvent ev rest).1 + 500 ≤ T →
      (advance fuel T (editsAt fuel (ev :: rest) s)).renders
        = s.renders ++ [⟨(lastEvent ev rest).1 + 500, (lastEvent ev rest).2.html,
            (lastEvent ev rest).2.css, (lastEvent ev rest).2.javascript⟩] ∧
      (advance fuel T (editsAt fuel (ev :: rest) s)).now = T) := by
  obtain ⟨hfirst, hlen1⟩ := editAt_spec fuel s ev (by omega) hok hnow
    (fun tm htm hcb => absurd hcb (hidle tm htm))
  have hlen1' : (editAt fuel s ev).timers.length ≤ s.timers.length + 1 := by
    have := List.length_filter_le (fun tm : Timer => tm.cb != .updatePreview) s.timers
    omega
  obtain ⟨hall, hlen⟩ := debouncePending_burst fuel s.timers.length rest (editAt fuel s ev) ev
    s.renders hfirst hlen1' (by omega) hburst
  have hrun : editsAt fuel (ev :: rest) s = editsAt fuel rest (editAt fuel s ev) := rfl
  rw [hrun]
  obtain ⟨hnow', hed, hrs, hok', id, -, hmem, honly⟩ := hall
  constructor
  · intro hT
    have hq : ∀ tm ∈ (editsAt fuel rest (editAt fuel s ev)).timers, tm.due ≤ T →
        tm.cb ≠ .updatePreview := by
      intro tm htm hd hcb
      have heq : tm = ⟨id, (lastEvent ev rest).1 + 500, .updatePreview⟩ :=
        timer_eq_of_id_eq _ hok'.1 _ _ htm hmem (honly tm htm hcb)
      rw [heq] at hd
      simp only at hd
      omega
    exact ((advance_quiet fuel T _ (by omega) hok'.1 hq).1).trans hrs
  · intro hT
    exact advance_fires fuel T (lastEvent ev rest).1 (lastEvent ev rest).2 s.renders _
      (by omega) hT (by omega) hed hrs hok' ⟨id, hmem, honly⟩

/-- Witness of `C10_debounce_single_render`: ten edits within 450 ms, made while the
timer of a notification is pending, are followed by one render, at time 950. -/
theorem C10_debounce_single_render_witness :
    (advance 4 2000 (editsAt 4 ((0, ⟨"", "", ""⟩) :: nineMoreEdits) shownA)).renders
        = [⟨950, "abc", "def", "ghi"⟩] ∧
      (advance 4 2000 (editsAt 4 ((0, ⟨"", "", ""⟩) :: nineMoreEdits) shownA)).now
        = 2000 :=
  (C10_debounce_single_render 4 shownA (0, ⟨"", "", ""⟩) nineMoreEdits 2000
    (by decide) (by unfold TimersOk; decide) (by unfold NoRenderPending; decide) (by decide)
    (by simp [nineMoreEdits])).2 (by decide)



/-! ## C11: the split-pane clamp -/

theorem clampPercentage_fin (q : ℚ) :
    clampPercentage (.fin q) = .fin (min (max q 20) 80) := by
  unfold clampPercentage mathMax mathMin
  by_cases h1 : q < 20
  · have h2 : ¬ (80 : ℚ) < 20 := by norm_num
    simp [JSNumber.lt, h1, h2, max_eq_right (le_of_lt h1)]
    norm_num
  · have h1' : (20 : ℚ) ≤ q := not_lt.1 h1
    by_cases h3 : 80 < q
    · simp [JSNumber.lt, h1, h3, max_eq_left h1', min_eq_right (le_of_lt h3)]
    · simp [JSNumber.lt, h1, h3, max_eq_left h1', min_eq_left (not_lt.1 h3)]

theorem clampPercentage_posInf : clampPercentage .posInf = .fin 80 := by
  simp [clampPercentage, mathMax, mathMin, JSNumber.lt]

theorem clampPercentage_negInf : clampPercentage .negInf = .fin 20 := by
  simp [clampPercentage, mathMax, mathMin, JSNumber.lt]
  norm_num

theorem clampPercentage_nan : clampPercentage .nan = .nan := by
  simp [clampPercentage, mathMax, mathMin]

/-- The raw percentage is `NaN` exactly when the container has width 0 and the
pointer is at its left edge. -/
theorem rawPercentage_eq_nan_iff (clientX left width : ℚ) :
    rawPercentage clientX left width = .nan ↔ width = 0 ∧ clientX = left := by
  unfold rawPercentage jsDiv
  by_cases hw : width = 0
  · by_cases hx : clientX - left = 0
    · have : clientX = left := by linarith
      simp [hw, hx, jsTimes100, this]
    · have hne : clientX ≠ left := fun h => hx (by rw [h]; ring)
      by_cases hpos : 0 < clientX - left
      · simp [hw, hx, hpos, jsTimes100, hne]
      · simp [hw, hx, hpos, jsTimes100, hne]
  · simp [hw, jsTimes100]

/-- A drag step never leaves a percentage outside `[20, 80]` in the layout: it
either keeps the declaration that was there (the step is ignored, or the raw
percentage is `NaN` and the declaration is dropped) or stores a finite
percentage between 20 and 80. -/
theorem resize_stored_in_range (pane : SplitPane) (s : AppState) (clientX left width : ℚ) :
    (resize pane s clientX left width).1.editorFlex = pane.editorFlex ∨
    ∃ q, (resize pane s clientX left width).1.editorFlex = some (.fin q) ∧ 20 ≤ q ∧ q ≤ 80 := by
  cases hres : pane.isResizing with
  | false => left; simp [resize, hres]
  | true =>
    cases hp : rawPercentage clientX left width with
    | nan => left; simp [resize, hres, hp, clampPercentage_nan, setEditorFlex, flexDeclarationValid]
    | negInf =>
      right
      exact ⟨20, by simp [resize, hres, hp, clampPercentage_negInf, setEditorFlex,
        flexDeclarationValid], le_refl _, by norm_num⟩
    | posInf =>
      right
      exact ⟨80, by simp [resize, hres, hp, clampPercentage_posInf, setEditorFlex,
        flexDeclarationValid], by norm_num, le_refl _⟩
    | fin q =>
      right
      refine ⟨min (max q 20) 80, by simp [resize, hres, hp, clampPercentage_fin, setEditorFlex,
        flexDeclarationValid], ?_, min_le_right _ _⟩
      exact le_min (le_max_right _ _) (by norm_num)

/-- C11: for every raw percentage `p` a drag step computes (a number; the `NaN` of a
container of width 0 is no percentage and its declaration is dropped), the
percentage `resize` stores in the layout is `min(max(p, 20), 80)`: it is a
finite number in `[20, 80]`, it equals `p` whenever `20 <= p <= 80`, it is 20
for every `p` below 20 and 80 for every `p` above 80. -/
theorem C11_clamp_of_number (p : JSNumber) (hp : p ≠ .nan) :
    (∀ pane s clientX left width, pane.isResizing = true →
      rawPercentage clientX left width = p →
      (resize pane s clientX left width).1.editorFlex = some (clampPercentage p)) ∧
    (∀ q, p = .fin q → clampPercentage p = .fin (min (max q 20) 80)) ∧
    (∃ q, clampPercentage p = .fin q ∧ 20 ≤ q ∧ q ≤ 80) ∧
    (JSNumber.le (.fin 20) p = true → JSNumber.le p (.fin 80) = true →
      clampPercentage p = p) ∧
    (JSNumber.lt p (.fin 20) = true → clampPercentage p = .fin 20) ∧
    (JSNumber.lt (.fin 80) p = true → clampPercentage p = .fin 80) := by
  refine ⟨?_, ?_, ?_, ?_, ?_, ?_⟩
  · intro pane s clientX left width hres hraw
    cases p with
    | nan => exact absurd rfl hp
    | negInf =>
      simp [resize, hres, hraw, clampPercentage_negInf, setEditorFlex, flexDeclarationValid]
    | posInf =>
      simp [resize, hres, hraw, clampPercentage_posInf, setEditorFlex, flexDeclarationValid]
    | fin q =>
      simp [resize, hres, hraw, clampPercentage_fin, setEditorFlex, flexDeclarationValid]
  · intro q hq
    rw [hq, clampPercentage_fin]
  · cases p with
    | nan => exact absurd rfl hp
    | negInf => exact ⟨20, clampPercentage_negInf, le_refl _, by norm_num⟩
    | posInf => exact ⟨80, clampPercentage_posInf, by norm_num, le_refl _⟩
    | fin q =>
      refine ⟨min (max q 20) 80, clampPercentage_fin q, ?_, min_le_right _ _⟩
      exact le_min (le_max_right _ _) (by norm_num)
  · intro h1 h2
    cases p with
    | nan => exact absurd rfl hp
    | negInf => simp [JSNumber.le] at h1
    | posInf => simp [JSNumber.le] at h2
    | fin q =>
      simp only [JSNumber.le, decide_eq_true_eq] at h1 h2
      rw [clampPercentage_fin, max_eq_left h1, min_eq_left h2]
  · intro h
    cases p with
    | nan => exact absurd rfl hp
    | negInf => exact clampPercentage_negInf
    | posInf => simp [JSNumber.lt] at h
    | fin q =>
      simp only [JSNumber.lt, decide_eq_true_eq] at h
      rw [clampPercentage_fin, max_eq_right (le_of_lt h)]
      norm_num
  · intro h
    cases p with
    | nan => exact absurd rfl hp
    | negInf => simp [JSNumber.lt] at h
    | posInf => exact clampPercentage_posInf
    | fin q =>
      simp only [JSNumber.lt, decide_eq_true_eq] at h
      have h20 : (20 : ℚ) ≤ q := le_trans (by norm_num) (le_of_lt h)
      rw [clampPercentage_fin, max_eq_left h20, min_eq_right (le_of_lt h)]

/-- Witness of `C11_clamp_of_number`: a drag step at 50 px in a container 1000 px
wide has the raw percentage 5, and 20 is stored. -/
theorem C11_clamp_of_number_witness :
    (resize ⟨true, none⟩ initialState 50 0 1000).1.editorFlex
      = some (clampPercentage (.fin 5)) ∧
    clampPercentage (.fin 5) = .fin 20 :=
  ⟨(C11_clamp_of_number (.fin 5) (by decide)).1 ⟨true, none⟩ initialState 50 0 1000 rfl
      (by norm_num [rawPercentage, jsDiv, jsTimes100]),
   (C11_clamp_of_number (.fin 5) (by decide)).2.2.2.2.1 (by decide)⟩


/-! ## C12: the diagnostic channel -/

theorem serializeArg_of_text (engine : Engine) (a : JSValue)
    (h : typeOf a = "object" → ∃ t, engine.stringify a = .text t) :
    serializeArg engine a = some (some (argText engine a)) := by
  unfold serializeArg argText
  by_cases hobj : typeOf a = "object"
  · obtain ⟨t, ht⟩ := h hobj
    simp [hobj, ht]
  · simp [hobj]

theorem serializeArgs_of_texts (engine : Engine) (args : List JSValue)
    (h : ∀ a ∈ args, typeOf a = "object" → ∃ t, engine.stringify a = .text t) :
    serializeArgs engine args = some ((args.map (argText engine)).map some) := by
  induction args with
  | nil => rfl
  | cons a rest ih =>
    have ha := serializeArg_of_text engine a (h a (List.mem_cons_self _ _))
    have hrest := ih (fun x hx => h x (List.mem_cons_of_mem _ hx))
    simp [serializeArgs, ha, hrest]

theorem arrayJoin_texts (sep : String) (texts : List String) :
    arrayJoin sep (texts.map some) = sep.intercalate texts := by
  simp [arrayJoin, List.map_map, Function.comp_def]

/-- C12, as stated, fails.  A `console.log` call made by a script of the markup
buffer runs before the wrappers are installed and is forwarded nowhere; when
the wrapper script does not run (a syntax error in the script buffer) no call
is forwarded at any time; and for an argument on which `JSON.stringify` throws
the wrapper throws before it posts. -/
theorem C12_counterexample_not_forwarded :
    previewConsoleCall sampleEngine true .parsingMarkup .log [.string "early"]
      = .nativeOnly ∧
    previewConsoleCall sampleEngine false .afterWrapperScript .log [.string "clicked"]
      = .nativeOnly ∧
    typeOf (.object 0) = "object" ∧ sampleEngine.stringify (.object 0) = .throws ∧
    previewConsoleCall sampleEngine true .afterWrapperScript .log
      [.string "state:", .object 0] = .threw := by
  refine ⟨rfl, rfl, rfl, rfl, rfl⟩

/-- C12 (amended): for every `console.log`, `console.warn` or `console.error` call
made in the preview while the wrappers are installed, with arguments `a1..an`
such that `JSON.stringify` returns a text for every one whose `typeof` is
`'object'`, the wrapper posts one message that carries the kind `console`, the
method name and exactly `n` strings in the same order, the JSON text of an
object-valued argument and the `String` form of any other; and the host
appends to the output log one entry, classed by the method, whose text is the
receipt time in brackets followed by those `n` strings in order joined by
single spaces. -/
theorem C12_console_forwarding (engine : Engine) (scriptRuns : Bool) (time : CallTime)
    (method : ConsoleMethod) (args : List JSValue)
    (hinstalled : wrappersInstalled scriptRuns time = true)
    (hjson : ∀ a ∈ args, typeOf a = "object" → ∃ t, engine.stringify a = .text t) :
    (args.map (argText engine)).length = args.length ∧
    (∀ a ∈ args, (typeOf a = "object" → engine.stringify a = .text (argText engine a)) ∧
      (typeOf a ≠ "object" → argText engine a = engine.stringOf a)) ∧
    previewConsoleCall engine scriptRuns time method args
      = .posted ⟨"console", method.name, (args.map (argText engine)).map some⟩ ∧
    ∀ output receipt,
      onMessage output receipt ⟨"console", method.name, (args.map (argText engine)).map some⟩
        = output ++ [⟨"console-log console-" ++ method.name,
            "[" ++ receipt ++ "] " ++ " ".intercalate (args.map (argText engine))⟩] := by
  refine ⟨by simp, ?_, ?_, ?_⟩
  · intro a ha
    constructor
    · intro hobj
      obtain ⟨t, ht⟩ := hjson a ha hobj
      simp [argText, hobj, ht]
    · intro hobj
      simp [argText, hobj]
  · simp [previewConsoleCall, hinstalled, consoleWrapper,
      serializeArgs_of_texts engine args hjson]
  · intro output receipt
    have hjoin := arrayJoin_texts " " (args.map (argText engine))
    simp only [onMessage, addConsoleMessage, if_true, hjoin]

/-- Witness of `C12_console_forwarding`: `console.warn("x =", 1, [1, 2])` made by the
script buffer. -/
theorem C12_console_forwarding_witness :
    previewConsoleCall sampleEngine true .afterWrapperScript .warn
        [.string "x =", .number (.fin 1), .object 2]
      = .posted ⟨"console", "warn", [some "x =", some "1", some "[1,2]"]⟩ ∧
    onMessage [] "10:00:00" ⟨"console", "warn", [some "x =", some "1", some "[1,2]"]⟩
      = [⟨"console-log console-warn", "[10:00:00] x = 1 [1,2]"⟩] :=
  ⟨(C12_console_forwarding sampleEngine true .afterWrapperScript .warn
      [.string "x =", .number (.fin 1), .object 2] rfl
      (by
        intro a ha hobj
        simp only [List.mem_cons, List.mem_singleton, List.not_mem_nil, or_false] at ha
        rcases ha with rfl | rfl | rfl
        · exact absurd hobj (by decide)
        · exact absurd hobj (by decide)
        · exact ⟨"[1,2]", rfl⟩)).2.2.1,
   (C12_console_forwarding sampleEngine true .afterWrapperScript .warn
      [.string "x =", .number (.fin 1), .object 2] rfl
      (by
        intro a ha hobj
        simp only [List.mem_cons, List.mem_singleton, List.not_mem_nil, or_false] at ha
        rcases ha with rfl | rfl | rfl
        · exact absurd hobj (by decide)
        · exact absurd hobj (by decide)
        · exact ⟨"[1,2]", rfl⟩)).2.2.2 [] "10:00:00"⟩

end CodeEditor
